import Mathlib

/-!
# The Mercury execution engine (`runtime/mercury_engine.c`)

A shallow embedding of the call boundary `MR_call_engine`, of the two
versions of `call_engine_inner` (the gcc version with its `engine_done`
label and the portable trampoline with its `engine_done` function), of the
thread-ownership bookkeeping and of the ring buffer of previous locations,
followed by the properties proved about them.

Conventions.
* A pointer is a machine word and `NULL` is the word `0`.
* `setjmp`/`longjmp` are split at the jump: `MR_call_engine_entry` is the code
  of `MR_call_engine` executed when `setjmp` returns `0`, up to the call of
  `call_engine_inner`; `MR_call_engine_resume` is the body of
  `if (setjmp(curr_jmp_buf)) { ... }`, executed when a `longjmp` arrives.
  The locals of the invocation that live across the jump are kept in
  `Locals`.
* Conditional compilation is a `Build` record, one field per preprocessor
  symbol the code tests.
-/

namespace Mercury

/-! ## Data model -/

/-- A machine word (`MR_Word`); pointers are words. -/
abbrev MR_Word := Nat

/-- The address of a code block (`MR_Code *`). -/
abbrev MR_Code := Nat

/-- A host thread identity (`MercuryThread`); `0` is "unowned". -/
abbrev MercuryThread := Nat

/-- The address of a `jmp_buf` (`jmp_buf *`). -/
abbrev JmpBufPtr := Nat

/-- The null pointer. -/
def NULL : Nat := 0

/-- The abstract machine registers the engine names, and the general purpose
registers `MR_r1`, `MR_r2`, ... -/
inductive Reg where
  | succip
  | hp
  | sp
  | curfr
  | maxfr
  | r (n : Nat)
  deriving DecidableEq, Repr

/-- A register file: one word per register. -/
abbrev RegFile := Reg → MR_Word

/-- The preprocessor symbols tested by `mercury_engine.c`, the word size of the
target, and the set of transient (register window) registers of the target. -/
structure Build where
  MR_USE_GCC_NONLOCAL_GOTOS : Bool
  MR_THREAD_SAFE : Bool
  MR_USE_TRAIL : Bool
  MR_MPROF_PROFILE_TIME : Bool
  MR_MPROF_PROFILE_CALLS : Bool
  MR_DEBUG_GOTOS : Bool
  NDEBUG : Bool
  wordBits : Nat
  transient : Reg → Bool

/-- The engine (`MercuryEngine`) together with the global state the file
reads and writes: the real registers, their shadow copy `MR_fake_reg`, the
saved `longjmp` target, the exception slot, the thread-ownership bookkeeping
(with the owner field of the engine's current context), the two nondet-stack
frame slots read by `MR_call_engine`, the trail and the profiling state. -/
structure MercuryEngine where
  reg : RegFile
  MR_fake_reg : RegFile
  MR_eng_jmp_buf : JmpBufPtr
  MR_eng_exception : MR_Word
  MR_eng_owner_thread : MercuryThread
  MR_eng_c_depth : Nat
  MR_eng_saved_owners : List MercuryThread
  MR_ctxt_owner_thread : MercuryThread
  prevfr_slot : MR_Word → MR_Word
  succfr_slot : MR_Word → MR_Word
  MR_ticket_counter : Nat
  trail_entries : List (MR_Word × MR_Word)
  MR_prof_current_proc : MR_Code
  prof_call_counts : List (MR_Code × MR_Code)

/-- The locals of one invocation of `MR_call_engine` that are live across
`setjmp`: its arguments, the address of `curr_jmp_buf`, `prev_jmp_buf` and
`prev_proc`. -/
structure Locals where
  entry_point : MR_Code
  catch_exceptions : Bool
  curr_jmp_buf : JmpBufPtr
  prev_jmp_buf : JmpBufPtr
  prev_proc : MR_Code

/-! ## Register macros (`mercury_regs.h`) and trail macro (`mercury_trail.h`) -/

/-- Modelled from the spec: `MR_save_registers()` is declared in
`mercury_regs.h`, which is not among the sources; it flushes the real registers
to the shadow copy. -/
def MR_save_registers (e : MercuryEngine) : MercuryEngine :=
  { e with MR_fake_reg := e.reg }

/-- Modelled from the spec: `MR_restore_registers()` is declared in
`mercury_regs.h`, which is not among the sources; it reloads the real registers
from the shadow copy. -/
def MR_restore_registers (e : MercuryEngine) : MercuryEngine :=
  { e with reg := e.MR_fake_reg }

/-- Modelled from the spec: `MR_restore_transient_registers()` is declared in
`mercury_regs.h`, which is not among the sources; it reloads the transient
registers of the target from the shadow copy and leaves the others. -/
def MR_restore_transient_registers (b : Build) (e : MercuryEngine) : MercuryEngine :=
  { e with reg := fun x => if b.transient x then e.MR_fake_reg x else e.reg x }

/-- Modelled from the spec: `MR_prune_ticket()` is declared in
`mercury_trail.h`, which is not among the sources; it discards the most recent
trail ticket (the ticket counter, a machine word, goes down by one) and does
not touch the recorded bindings. -/
def MR_prune_ticket (b : Build) (e : MercuryEngine) : MercuryEngine :=
  { e with MR_ticket_counter :=
      (e.MR_ticket_counter + 2 ^ b.wordBits - 1) % 2 ^ b.wordBits }

/-- The effect of `longjmp` on the state: control moves to the `setjmp` of the
target buffer and the real registers hold whatever the jump left in them
(`clobber`); memory, the shadow copy included, is not touched. -/
def longjmp (clobber : RegFile) (e : MercuryEngine) : MercuryEngine :=
  { e with reg := clobber }

/-! ## Thread-ownership bookkeeping of the gcc `call_engine_inner` -/

/-- The entry bookkeeping (`#ifdef MR_THREAD_SAFE` block before
`MR_noprof_call`): `MR_eng_c_depth++`, push the context's owner on
`MR_eng_saved_owners`, make the engine's thread the owner. -/
def enter_bookkeeping (b : Build) (e : MercuryEngine) : MercuryEngine :=
  { e with
    MR_eng_c_depth := (e.MR_eng_c_depth + 1) % 2 ^ b.wordBits
    MR_eng_saved_owners := e.MR_ctxt_owner_thread :: e.MR_eng_saved_owners
    MR_ctxt_owner_thread := e.MR_eng_owner_thread }

/-- The exit bookkeeping (`#ifdef MR_THREAD_SAFE` block after the
`engine_done` label): the assertion (`none` is the abort of a failed
`assert`, which `NDEBUG` compiles away), `MR_eng_c_depth--`, pop the saved
owner list into the context's owner, or `0` when the list is empty. -/
def exit_bookkeeping (b : Build) (e : MercuryEngine) : Option MercuryEngine :=
  if !b.NDEBUG && !(e.MR_ctxt_owner_thread == e.MR_eng_owner_thread) then none
  else
    let depth := (e.MR_eng_c_depth + 2 ^ b.wordBits - 1) % 2 ^ b.wordBits
    match e.MR_eng_saved_owners with
    | val :: next =>
      some { e with
        MR_eng_c_depth := depth
        MR_eng_saved_owners := next
        MR_ctxt_owner_thread := val }
    | [] =>
      some { e with
        MR_eng_c_depth := depth
        MR_ctxt_owner_thread := 0 }

/-! ## The done block -/

/-- The portable `engine_done()`, up to its `longjmp`: clear the exception
slot and save the registers. -/
def engine_done (e : MercuryEngine) : MercuryEngine :=
  MR_save_registers { e with MR_eng_exception := NULL }

/-- The code at the label `engine_done` of the gcc `call_engine_inner`, up to
its `longjmp`: the thread-safe exit bookkeeping, then clear the exception slot
and save the registers. -/
def engine_done_label (b : Build) (e : MercuryEngine) : Option MercuryEngine :=
  match (if b.MR_THREAD_SAFE then exit_bookkeeping b e else some e) with
  | none => none
  | some e1 => some (MR_save_registers { e1 with MR_eng_exception := NULL })

/-- The done block of the build's dispatch strategy, up to its `longjmp`. -/
def done_block (b : Build) (e : MercuryEngine) : Option MercuryEngine :=
  if b.MR_USE_GCC_NONLOCAL_GOTOS then engine_done_label b e else some (engine_done e)

/-! ## `MR_call_engine` -/

/-- The body of `if (setjmp(curr_jmp_buf)) { ... }` in `MR_call_engine`: the
state left behind and the value returned. `MR_update_prof_current_proc` stores
its argument in `MR_prof_current_proc` when time profiling is compiled in and
is empty otherwise (`prev_proc` is declared only then). -/
def MR_call_engine_resume (b : Build) (l : Locals) (e : MercuryEngine) :
    MercuryEngine × MR_Word :=
  -- MR_update_prof_current_proc(prev_proc)
  let e1 := if b.MR_MPROF_PROFILE_TIME then
      { e with MR_prof_current_proc := l.prev_proc } else e
  let e2 := MR_restore_registers e1
  let e3 := { e2 with MR_eng_jmp_buf := l.prev_jmp_buf }
  if l.catch_exceptions then
    let exception := e3.MR_eng_exception
    if exception ≠ NULL then (e3, exception)
    else
      let this_frame := e3.reg Reg.curfr
      let e4 := { e3 with reg := Function.update e3.reg Reg.maxfr (e3.prevfr_slot this_frame) }
      let e5 := { e4 with reg := Function.update e4.reg Reg.curfr (e4.succfr_slot this_frame) }
      let e6 := if b.MR_USE_TRAIL then MR_prune_ticket b e5 else e5
      (e6, NULL)
  else (e3, NULL)

/-- The code of `MR_call_engine` from its first statement up to the call of
`call_engine_inner` (`setjmp` returning `0`): the state handed to
`call_engine_inner` and the locals of the invocation.
`create_handler` stands for the macro `MR_create_exception_handler` of
`mercury_stacks.h`, which is not among the sources. The call count recorded by
`MR_PROFILE` is kept as a list of (callee, caller) pairs. -/
def MR_call_engine_entry (b : Build) (create_handler : MercuryEngine → MercuryEngine)
    (curr_jmp_buf : JmpBufPtr) (entry_point : MR_Code) (catch_exceptions : Bool)
    (e : MercuryEngine) : MercuryEngine × Locals :=
  let e1 := MR_restore_transient_registers b e
  let prev_jmp_buf := e1.MR_eng_jmp_buf
  let e2 := { e1 with MR_eng_jmp_buf := curr_jmp_buf }
  let e3 := if catch_exceptions then create_handler e2 else e2
  -- setjmp(curr_jmp_buf) returns 0
  let e4 := { e3 with MR_eng_jmp_buf := curr_jmp_buf }
  let e5 :=
    if b.MR_MPROF_PROFILE_CALLS && b.MR_MPROF_PROFILE_TIME
        && (e4.MR_prof_current_proc != NULL) then
      { e4 with prof_call_counts :=
          (entry_point, e4.MR_prof_current_proc) :: e4.prof_call_counts }
    else e4
  let prev_proc := e5.MR_prof_current_proc
  let e6 := if b.MR_MPROF_PROFILE_TIME then
      { e5 with MR_prof_current_proc := entry_point } else e5
  (e6, { entry_point := entry_point, catch_exceptions := catch_exceptions,
         curr_jmp_buf := curr_jmp_buf, prev_jmp_buf := prev_jmp_buf,
         prev_proc := prev_proc })

/-- The gcc `call_engine_inner` from its first statement up to the jump to
`entry_point`: restore the transient registers, do the thread-safe entry
bookkeeping, and `MR_noprof_call(entry_point, MR_LABEL(engine_done))`, which
stores the done label (at address `done_addr`) in the success continuation
register. -/
def call_engine_inner_gcc_start (b : Build) (done_addr : MR_Code) (e : MercuryEngine) :
    MercuryEngine :=
  let e1 := MR_restore_transient_registers b e
  let e2 := if b.MR_THREAD_SAFE then enter_bookkeeping b e1 else e1
  { e2 with reg := Function.update e2.reg Reg.succip done_addr }

/-- The portable `engine_init_registers()`: restore the transient registers and
store the address of `engine_done` in the success continuation register. The
value it returns is `NULL`. -/
def engine_init_registers (b : Build) (done_addr : MR_Code) (e : MercuryEngine) :
    MercuryEngine × MR_Code :=
  let e1 := MR_restore_transient_registers b e
  ({ e1 with reg := Function.update e1.reg Reg.succip done_addr }, NULL)

/-- The state in which the first guest block runs, for the build's strategy. -/
def call_engine_inner_start (b : Build) (done_addr : MR_Code) (e : MercuryEngine) :
    MercuryEngine :=
  if b.MR_USE_GCC_NONLOCAL_GOTOS then call_engine_inner_gcc_start b done_addr e
  else (engine_init_registers b done_addr e).1

/-- `MR_init_engine`, restricted to the fields of the model: in a thread-safe
build the owner is `pthread_self()` (here `self`), the depth is `0` and the
saved owner list is empty; the fresh context made by `MR_create_context` has
owner `ctxt_owner`. -/
def MR_init_engine (b : Build) (self ctxt_owner : MercuryThread) (e : MercuryEngine) :
    MercuryEngine :=
  if b.MR_THREAD_SAFE then
    { e with
      MR_eng_owner_thread := self
      MR_eng_c_depth := 0
      MR_eng_saved_owners := []
      MR_ctxt_owner_thread := ctxt_owner }
  else e

/-! ## Nested calls -/

/-- How the dispatch loop of one invocation is left: through the done block,
or through a `longjmp` of the code that throws an exception. In both cases
`clobber` is what the jump leaves in the real registers. -/
inductive Leave where
  | done (clobber : RegFile)
  | throw (exception : MR_Word) (unwind : MercuryEngine → MercuryEngine) (clobber : RegFile)

/-- What happens between a point of the execution and the end of the enclosing
dispatch loop (or of the host program, at the outermost level): nothing more,
a piece of guest or host code that is not a call of `MR_call_engine`, or a
call of `MR_call_engine` whose dispatch loop runs `body` and is left by
`leave`, followed by the rest. -/
inductive Run where
  | stop : Run
  | code (f : MercuryEngine → MercuryEngine) (rest : Run)
  | call (curr_jmp_buf : JmpBufPtr) (entry_point : MR_Code) (catch_exceptions : Bool)
      (body : Run) (leave : Leave) (rest : Run)

/-- Modelled from the spec: the code that throws (`builtin_throw`, not among
the sources) unwinds the stacks and the trail (`unwind`), stores the payload in
the exception slot, saves the registers and performs the non-local exit. The
done block is `done_block`. `none` is the abort of the ownership assertion. -/
def leave_loop (b : Build) : Leave → MercuryEngine → Option MercuryEngine
  | Leave.done clobber, e =>
    match done_block b e with
    | none => none
    | some e1 => some (longjmp clobber e1)
  | Leave.throw exception unwind clobber, e =>
    some (longjmp clobber (MR_save_registers { unwind e with MR_eng_exception := exception }))

/-- The state after a run. A call is `MR_call_engine_entry`, the start of
`call_engine_inner`, the body, the exit and, since the `longjmp` goes to the
buffer `MR_eng_jmp_buf` points to, `MR_call_engine_resume` of this invocation
when that buffer is its own (`none` otherwise, and when an assertion aborts). -/
def exec (b : Build) (create_handler : MercuryEngine → MercuryEngine) (done_addr : MR_Code) :
    Run → MercuryEngine → Option MercuryEngine
  | Run.stop, e => some e
  | Run.code f rest, e => exec b create_handler done_addr rest (f e)
  | Run.call curr_jmp_buf entry_point catch_exceptions body leave rest, e =>
    let start := MR_call_engine_entry b create_handler curr_jmp_buf entry_point
      catch_exceptions e
    match exec b create_handler done_addr body
        (call_engine_inner_start b done_addr start.1) with
    | none => none
    | some e1 =>
      match leave_loop b leave e1 with
      | none => none
      | some e2 =>
        if e2.MR_eng_jmp_buf = curr_jmp_buf then
          exec b create_handler done_addr rest (MR_call_engine_resume b start.2 e2).1
        else none

/-- Whether, at every point of a run (before each piece of code, before each
call and at each end), `MR_eng_jmp_buf` is `target`, where `target` is the
buffer of the innermost invocation of `MR_call_engine` that is running (and
the given one at the outermost level). -/
def targets_ok (b : Build) (create_handler : MercuryEngine → MercuryEngine)
    (done_addr : MR_Code) : JmpBufPtr → Run → MercuryEngine → Bool
  | target, Run.stop, e => e.MR_eng_jmp_buf == target
  | target, Run.code f rest, e =>
    e.MR_eng_jmp_buf == target && targets_ok b create_handler done_addr target rest (f e)
  | target, Run.call curr_jmp_buf entry_point catch_exceptions body leave rest, e =>
    let start := MR_call_engine_entry b create_handler curr_jmp_buf entry_point
      catch_exceptions e
    let inner := call_engine_inner_start b done_addr start.1
    e.MR_eng_jmp_buf == target
    && targets_ok b create_handler done_addr curr_jmp_buf body inner
    && (match exec b create_handler done_addr body inner with
        | none => true
        | some e1 =>
          match leave_loop b leave e1 with
          | none => true
          | some e2 =>
            targets_ok b create_handler done_addr target rest
              (MR_call_engine_resume b start.2 e2).1)

/-- The code run between calls (and the unwinding of a throw) leaves
`MR_eng_jmp_buf` alone: only `MR_call_engine` assigns it. -/
def keeps_target : Run → Prop
  | Run.stop => True
  | Run.code f rest => (∀ e, (f e).MR_eng_jmp_buf = e.MR_eng_jmp_buf) ∧ keeps_target rest
  | Run.call _ _ _ body leave rest =>
    keeps_target body ∧ keeps_target rest ∧
    (match leave with
     | Leave.done _ => True
     | Leave.throw _ unwind _ => ∀ e, (unwind e).MR_eng_jmp_buf = e.MR_eng_jmp_buf)

/-! ## Sequences of dispatch-loop entries and exits (thread-safe builds) -/

/-- One event of the ownership bookkeeping: the entry block, the exit block, or
code run in between, which may hand the context to another owner. -/
inductive Event where
  | enter
  | leave
  | other (owner : MercuryThread)
  deriving DecidableEq, Repr

/-- The effect of one event; `none` is the abort of the exit assertion. -/
def event_step (b : Build) : Event → MercuryEngine → Option MercuryEngine
  | Event.enter, e => some (enter_bookkeeping b e)
  | Event.leave, e => exit_bookkeeping b e
  | Event.other owner, e => some { e with MR_ctxt_owner_thread := owner }

/-- The effect of a sequence of events. -/
def events_run (b : Build) : List Event → MercuryEngine → Option MercuryEngine
  | [], e => some e
  | ev :: rest, e =>
    match event_step b ev e with
    | none => none
    | some e1 => events_run b rest e1

/-- Whether a sequence of events, started with `open_calls` entries unmatched,
never has an exit without an earlier unmatched entry. -/
def exits_matched : Nat → List Event → Bool
  | _, [] => true
  | n, Event.enter :: rest => exits_matched (n + 1) rest
  | 0, Event.leave :: _ => false
  | n + 1, Event.leave :: rest => exits_matched n rest
  | n, Event.other _ :: rest => exits_matched n rest

/-- Whether a sequence of events, started with `open_calls` entries unmatched,
is properly nested: each exit matches the most recent unmatched entry, all
entries are matched at the end, and code runs only inside a dispatch loop. -/
def properly_nested : Nat → List Event → Bool
  | n, [] => n == 0
  | n, Event.enter :: rest => properly_nested (n + 1) rest
  | 0, Event.leave :: _ => false
  | n + 1, Event.leave :: rest => properly_nested n rest
  | 0, Event.other _ :: _ => false
  | n + 1, Event.other _ :: rest => properly_nested (n + 1) rest

/-! ## The portable dispatch loop and the buffer of previous locations -/

/-- `NUM_PREV_FPS`. -/
def NUM_PREV_FPS : Nat := 40

/-- The statics `prev_fps` and `prev_fp_index`. -/
structure PrevLocations where
  prev_fps : List MR_Code
  prev_fp_index : Nat
  deriving DecidableEq, Repr

/-- The statics as the C initialisation leaves them: 40 null pointers, index 0. -/
def prev_locations_init : PrevLocations :=
  { prev_fps := List.replicate NUM_PREV_FPS NULL, prev_fp_index := 0 }

/-- The recording statements of the loop:
`prev_fps[prev_fp_index] = fp; if (++prev_fp_index >= NUM_PREV_FPS) prev_fp_index = 0;` -/
def record_location (p : PrevLocations) (fp : MR_Code) : PrevLocations :=
  let fps := p.prev_fps.set p.prev_fp_index fp
  let index := p.prev_fp_index + 1
  { prev_fps := fps, prev_fp_index := if index ≥ NUM_PREV_FPS then 0 else index }

/-- The `for` loop of `MR_dump_prev_locations()`: the addresses passed to
`MR_printlabel`, in the order printed. -/
def dump_loop (p : PrevLocations) : List MR_Code :=
  (List.range NUM_PREV_FPS).map
    (fun i => p.prev_fps.getD ((i + p.prev_fp_index) % NUM_PREV_FPS) NULL)

/-- `MR_dump_prev_locations()` of the portable build: the locations it lists.
Without `MR_DEBUG_GOTOS` the body is guarded by `MR_tracedebug`. -/
def MR_dump_prev_locations (b : Build) (MR_tracedebug : Bool) (p : PrevLocations) :
    List MR_Code :=
  if b.MR_DEBUG_GOTOS || MR_tracedebug then dump_loop p else []

/-- What invoking a block gives: the machine state it leaves and the address
it returns, or the state in which it left through `longjmp`. -/
inductive Outcome (σ : Type) where
  | next (s : σ) (fp : MR_Code)
  | jumped (s : σ)

/-- The state of the dispatch loop: the machine state and `fp`, or the machine
state with which the loop was left. -/
inductive Dispatch (σ : Type) where
  | running (s : σ) (fp : MR_Code)
  | left (s : σ)

/-- The statement `fp = (Func *) (*fp)();`. -/
def invoke {σ : Type} (blocks : MR_Code → σ → Outcome σ) : Dispatch σ → Dispatch σ
  | Dispatch.running s fp =>
    match blocks fp s with
    | Outcome.next s1 fp1 => Dispatch.running s1 fp1
    | Outcome.jumped s1 => Dispatch.left s1
  | Dispatch.left s => Dispatch.left s

/-- The body of the tight loop: the statement eight times. -/
def tight_body {σ : Type} (blocks : MR_Code → σ → Outcome σ) (d : Dispatch σ) : Dispatch σ :=
  let d1 := invoke blocks d
  let d2 := invoke blocks d1
  let d3 := invoke blocks d2
  let d4 := invoke blocks d3
  let d5 := invoke blocks d4
  let d6 := invoke blocks d5
  let d7 := invoke blocks d6
  invoke blocks d7

/-- The tight loop, `k` times round. -/
def tight_path {σ : Type} (blocks : MR_Code → σ → Outcome σ) : Nat → Dispatch σ → Dispatch σ
  | 0, d => d
  | k + 1, d => tight_path blocks k (tight_body blocks d)

/-- The body of the recording loop: record `fp`, then the statement. (The
macros `MR_debuggoto` and `MR_debugsreg` only print.) -/
def recording_body {σ : Type} (blocks : MR_Code → σ → Outcome σ) :
    PrevLocations × Dispatch σ → PrevLocations × Dispatch σ
  | (p, Dispatch.running s fp) =>
    (record_location p fp, invoke blocks (Dispatch.running s fp))
  | (p, Dispatch.left s) => (p, Dispatch.left s)

/-- The recording loop, `n` times round. -/
def recording_path {σ : Type} (blocks : MR_Code → σ → Outcome σ) :
    Nat → PrevLocations × Dispatch σ → PrevLocations × Dispatch σ
  | 0, x => x
  | n + 1, x => recording_path blocks n (recording_body blocks x)

/-- The portable `call_engine_inner`, its loop taken `rounds` times round:
`engine_init_registers` is invoked and its result dropped, `fp` becomes
`entry_point`, and the loop is the tight one unless the build has
`MR_DEBUG_GOTOS` or `MR_tracedebug` is set. -/
def call_engine_inner {σ : Type} (b : Build) (MR_tracedebug : Bool)
    (init_registers : σ → σ × MR_Code) (blocks : MR_Code → σ → Outcome σ) (rounds : Nat)
    (entry_point : MR_Code) (p : PrevLocations) (s : σ) : PrevLocations × Dispatch σ :=
  let s1 := (init_registers s).1
  let d := Dispatch.running s1 entry_point
  if !b.MR_DEBUG_GOTOS && !MR_tracedebug then (p, tight_path blocks rounds d)
  else recording_path blocks rounds (p, d)

/-- A block semantics that also keeps, next to the machine state, the list of
the blocks invoked so far (most recent last). -/
def logging {σ : Type} (blocks : MR_Code → σ → Outcome σ) :
    MR_Code → σ × List MR_Code → Outcome (σ × List MR_Code)
  | fp, (s, log) =>
    match blocks fp s with
    | Outcome.next s1 fp1 => Outcome.next (s1, log ++ [fp]) fp1
    | Outcome.jumped s1 => Outcome.jumped (s1, log ++ [fp])

/-- The blocks invoked by `n` rounds of the single statement. -/
def invoked {σ : Type} (blocks : MR_Code → σ → Outcome σ) : Nat → Dispatch σ → List MR_Code
  | 0, _ => []
  | _ + 1, Dispatch.left _ => []
  | n + 1, Dispatch.running s fp => fp :: invoked blocks n (invoke blocks (Dispatch.running s fp))

/-! ## Concrete states used to instantiate the properties -/

/-- A portable, single-threaded build with the trail, on a 64-bit target
without register windows. -/
def sample_build : Build :=
  { MR_USE_GCC_NONLOCAL_GOTOS := false, MR_THREAD_SAFE := false, MR_USE_TRAIL := true,
    MR_MPROF_PROFILE_TIME := false, MR_MPROF_PROFILE_CALLS := false,
    MR_DEBUG_GOTOS := false, NDEBUG := false, wordBits := 64,
    transient := fun _ => false }

/-- A thread-safe gcc build with assertions on. -/
def sample_build_gcc : Build :=
  { sample_build with MR_USE_GCC_NONLOCAL_GOTOS := true, MR_THREAD_SAFE := true }

/-- Registers of a machine whose current frame is at 20 and whose nondet stack
top is at 30. -/
def sample_regs : RegFile
  | Reg.succip => 100
  | Reg.hp => 200
  | Reg.sp => 300
  | Reg.curfr => 20
  | Reg.maxfr => 30
  | Reg.r n => n

/-- An engine state: the frame at 20 was pushed when the stack top was 10 and
the current frame 4; the exception slot still holds the value 77 of an earlier
call; one ticket and one binding are on the trail. -/
def sample_engine : MercuryEngine :=
  { reg := sample_regs, MR_fake_reg := fun _ => 0, MR_eng_jmp_buf := 5000,
    MR_eng_exception := 77, MR_eng_owner_thread := 1, MR_eng_c_depth := 0,
    MR_eng_saved_owners := [], MR_ctxt_owner_thread := 1,
    prevfr_slot := fun f => if f = 20 then 10 else 0,
    succfr_slot := fun f => if f = 20 then 4 else 0,
    MR_ticket_counter := 1, trail_entries := [(40, 0)],
    MR_prof_current_proc := 0, prof_call_counts := [] }

/-- The locals of an invocation with `catch_exceptions` true whose buffer is at
5000 and whose caller's target was 4000. -/
def sample_locals : Locals :=
  { entry_point := 900, catch_exceptions := true, curr_jmp_buf := 5000,
    prev_jmp_buf := 4000, prev_proc := 0 }

/-- What a `longjmp` may leave in the real registers: here, zeros. -/
def sample_clobber : RegFile := fun _ => 0

/-- A piece of guest code: it writes 42 to `MR_r1`. -/
def sample_code (e : MercuryEngine) : MercuryEngine :=
  { e with reg := Function.update e.reg (Reg.r 1) 42 }

/-- A host program calls guest code (buffer 6000, exceptions caught), which
calls back into host code, which calls guest code again (buffer 7000,
exceptions not caught); the inner loop is left by a throw of 55, the outer one
through the done block. -/
def sample_run : Run :=
  Run.call 6000 900 true
    (Run.code sample_code
      (Run.call 7000 901 false (Run.code sample_code Run.stop)
        (Leave.throw 55 id sample_clobber)
        (Run.code sample_code Run.stop)))
    (Leave.done sample_clobber)
    (Run.code sample_code Run.stop)

/-- The last element of a list, or `d` for the empty list. -/
def last_or {α : Type} (d : α) : List α → α
  | [] => d
  | a :: l => last_or a l

/-- Every element but the last is `t`. -/
def all_but_last {α : Type} (t : α) : List α → Prop
  | [] => True
  | [_] => True
  | a :: c :: l => a = t ∧ all_but_last t (c :: l)

/-- An engine at depth 1 whose context is owned by thread 9 and whose saved
owner list holds 3; the engine runs on thread 1. -/
def sample_owned : MercuryEngine :=
  { sample_engine with
    MR_eng_c_depth := 1, MR_eng_saved_owners := [3], MR_ctxt_owner_thread := 9 }

/-- Host calls guest, guest calls host, host calls guest twice in a row, and
everything returns. -/
def sample_events : List Event :=
  [Event.enter, Event.enter, Event.leave, Event.other 1, Event.enter, Event.leave,
    Event.leave]

/-- The log kept next to the machine state by `logging`. -/
def Dispatch.log {σ : Type} : Dispatch (σ × List MR_Code) → List MR_Code
  | Dispatch.running s _ => s.2
  | Dispatch.left s => s.2

/-- The loop state without the log. -/
def Dispatch.erase {σ : Type} : Dispatch (σ × List MR_Code) → Dispatch σ
  | Dispatch.running s fp => Dispatch.running s.1 fp
  | Dispatch.left s => Dispatch.left s.1

/-- A program of three blocks over a counter: block 1 adds one and goes to
block 2, block 2 doubles and goes to block 1 until the counter exceeds 20, when
it goes to block 3, which leaves through `longjmp`. -/
def sample_blocks : MR_Code → Nat → Outcome Nat
  | 1, s => Outcome.next (s + 1) 2
  | 2, s => if s * 2 > 20 then Outcome.next (s * 2) 3 else Outcome.next (s * 2) 1
  | _, s => Outcome.jumped s

/-! ## The first guest block -/

/-- Modelled from the spec: `MR_noprof_call(proc, succ_cont)` is declared in
`mercury_calls.h`, which is not among the sources; it is a call into `proc`
with `succ_cont` as its return address: the success continuation register gets
`succ_cont` and control goes to `proc`. The result is the state in which the
next block runs, and that block. -/
def MR_noprof_call (proc succ_cont : MR_Code) (e : MercuryEngine) : MercuryEngine × MR_Code :=
  ({ e with reg := Function.update e.reg Reg.succip succ_cont }, proc)

/-- The gcc `call_engine_inner` from its first statement to the first guest
block: restore the transient registers, do the thread-safe entry bookkeeping,
and `MR_noprof_call(entry_point, MR_LABEL(engine_done))`, the done label being
at address `done_addr`. (The statements in between print, fill `locals` or
jump to the next line.) The result is the state in which the first guest block
runs, and that block. -/
def call_engine_inner_gcc_first (b : Build) (done_addr entry_point : MR_Code)
    (e : MercuryEngine) : MercuryEngine × MR_Code :=
  let e1 := MR_restore_transient_registers b e
  let e2 := if b.MR_THREAD_SAFE then enter_bookkeeping b e1 else e1
  MR_noprof_call entry_point done_addr e2

/-- The portable `call_engine_inner` from its first statement to the loop:
`fp = engine_init_registers; fp = (Func *) (*fp)(); fp = (Func *) entry_point;`.
The result is the state and the `fp` with which the loop is entered. -/
def call_engine_inner_portable_first (b : Build) (done_addr entry_point : MR_Code)
    (e : MercuryEngine) : MercuryEngine × MR_Code :=
  let r := engine_init_registers b done_addr e
  let _fp := r.2
  let fp := entry_point
  (r.1, fp)

/-- The state in which the first guest block runs, and that block, for the
build's strategy. -/
def first_guest_block (b : Build) (done_addr entry_point : MR_Code) (e : MercuryEngine) :
    MercuryEngine × MR_Code :=
  if b.MR_USE_GCC_NONLOCAL_GOTOS then call_engine_inner_gcc_first b done_addr entry_point e
  else call_engine_inner_portable_first b done_addr entry_point e

/-- An initialisation routine over the machine state, carried to the machine
state with a log next to it: the log is not touched. -/
def init_with_log {σ : Type} (init_registers : σ → σ × MR_Code) :
    σ × List MR_Code → (σ × List MR_Code) × MR_Code
  | (s, log) => (((init_registers s).1, log), (init_registers s).2)

/-- A target with register windows: the success continuation register, the
stack pointer and `MR_r1` are transient. -/
def sample_build_windows : Build :=
  { sample_build with
    transient := fun x => x == Reg.succip || x == Reg.sp || x == Reg.r 1 }

/-- The sample engine with a shadow copy that holds 111 for the success
continuation, 333 for the stack pointer, and 7 elsewhere. -/
def sample_shadowed : MercuryEngine :=
  { sample_engine with
    MR_fake_reg := fun x => if x = Reg.succip then 111 else if x = Reg.sp then 333 else 7 }

/-! ## Properties -/

/-! ### Helper lemmas on the resumption -/

/-- The resumption never writes the shadow copy. -/
theorem resume_fake_reg_unchanged (b : Build) (l : Locals) (e : MercuryEngine) :
    (MR_call_engine_resume b l e).1.MR_fake_reg = e.MR_fake_reg := by
  cases hp : b.MR_MPROF_PROFILE_TIME <;> cases ht : b.MR_USE_TRAIL <;>
    cases hc : l.catch_exceptions <;>
    by_cases hx : e.MR_eng_exception = NULL <;>
    simp [MR_call_engine_resume, MR_restore_registers, MR_prune_ticket, hp, ht, hc, hx]

/-- Without `catch_exceptions` the registers after the resumption are the
shadow copy. -/
theorem resume_reg_without_catch (b : Build) (l : Locals) (e : MercuryEngine)
    (hcatch : l.catch_exceptions = false) :
    (MR_call_engine_resume b l e).1.reg = e.MR_fake_reg := by
  cases hp : b.MR_MPROF_PROFILE_TIME <;>
    simp [MR_call_engine_resume, MR_restore_registers, hcatch, hp]

/-- With `catch_exceptions` and an empty slot the registers after the
resumption are the shadow copy with the handler frame removed. -/
theorem resume_reg_with_catch (b : Build) (l : Locals) (e : MercuryEngine)
    (hcatch : l.catch_exceptions = true) (hexc : e.MR_eng_exception = NULL) :
    (MR_call_engine_resume b l e).1.reg Reg.maxfr = e.prevfr_slot (e.MR_fake_reg Reg.curfr) ∧
    (MR_call_engine_resume b l e).1.reg Reg.curfr = e.succfr_slot (e.MR_fake_reg Reg.curfr) ∧
    (∀ x, x ≠ Reg.maxfr → x ≠ Reg.curfr →
      (MR_call_engine_resume b l e).1.reg x = e.MR_fake_reg x) := by
  cases hp : b.MR_MPROF_PROFILE_TIME <;> cases ht : b.MR_USE_TRAIL <;>
    simp [MR_call_engine_resume, MR_restore_registers, MR_prune_ticket, hcatch, hexc, hp, ht,
      Function.update] <;>
    intro x h1 h2 <;> simp [h1, h2]

/-- The exit bookkeeping touches neither the registers nor the frame slots. -/
theorem exit_bookkeeping_registers (b : Build) (e e1 : MercuryEngine)
    (h : exit_bookkeeping b e = some e1) :
    e1.reg = e.reg ∧ e1.prevfr_slot = e.prevfr_slot ∧ e1.succfr_slot = e.succfr_slot := by
  unfold exit_bookkeeping at h
  split at h
  · cases h
  · split at h <;> cases h <;> exact ⟨rfl, rfl, rfl⟩

/-- The done block leaves the real registers and the frame slots as they were,
copies the registers to the shadow copy and empties the exception slot. -/
theorem done_block_registers (b : Build) (e e1 : MercuryEngine)
    (h : done_block b e = some e1) :
    e1.reg = e.reg ∧ e1.MR_fake_reg = e.reg ∧ e1.MR_eng_exception = NULL ∧
      e1.prevfr_slot = e.prevfr_slot ∧ e1.succfr_slot = e.succfr_slot := by
  unfold done_block at h
  split at h
  · unfold engine_done_label at h
    split at h
    · cases h
    · rename_i e2 h2
      cases h
      split at h2
      · obtain ⟨h3, h4, h5⟩ := exit_bookkeeping_registers b e e2 h2
        exact ⟨h3, h3, rfl, h4, h5⟩
      · cases h2
        exact ⟨rfl, rfl, rfl, rfl, rfl⟩
  · cases h
    exact ⟨rfl, rfl, rfl, rfl, rfl⟩

/-! ### The done block and the return value of `MR_call_engine` -/

/-- C1: in every engine state, for both values of `catch_exceptions` and both
dispatch strategies, the done block clears the exception slot before the
non-local exit, so that `MR_call_engine`, resumed after the jump, returns
`NULL` whatever the slot held; the done block fails to reach its exit only
when the ownership assertion of a thread-safe gcc build aborts. -/
theorem done_block_clears_exception (b : Build) (l : Locals) (clobber : RegFile)
    (e : MercuryEngine) :
    match done_block b e with
    | none =>
      b.MR_USE_GCC_NONLOCAL_GOTOS = true ∧ b.MR_THREAD_SAFE = true ∧ b.NDEBUG = false ∧
        e.MR_ctxt_owner_thread ≠ e.MR_eng_owner_thread
    | some e1 =>
      e1.MR_eng_exception = NULL ∧
        (MR_call_engine_resume b l (longjmp clobber e1)).2 = NULL := by
  cases hg : b.MR_USE_GCC_NONLOCAL_GOTOS <;> cases ht : b.MR_THREAD_SAFE <;>
    cases hn : b.NDEBUG <;>
    by_cases ho : e.MR_ctxt_owner_thread = e.MR_eng_owner_thread <;>
    cases hs : e.MR_eng_saved_owners <;>
    cases hc : l.catch_exceptions <;>
    simp [done_block, engine_done, engine_done_label, exit_bookkeeping, MR_save_registers,
      MR_call_engine_resume, MR_restore_registers, longjmp, NULL, hg, ht, hn, ho, hs, hc] <;>
    split <;> simp_all

/-- The done block on a state whose exception slot holds 77, then the jump and
the resumption with `catch_exceptions` true: the value returned is `NULL`. -/
theorem done_block_clears_exception_witness :
    (done_block sample_build sample_engine).map
      (fun e1 => (e1.MR_eng_exception,
        (MR_call_engine_resume sample_build sample_locals (longjmp sample_clobber e1)).2))
      = some (0, 0) := by
  have h := done_block_clears_exception sample_build sample_locals sample_clobber sample_engine
  simp [done_block, sample_build] at h ⊢
  simpa [NULL] using h

/-- C2: resumed with `catch_exceptions` true and a non-empty exception slot,
`MR_call_engine` returns exactly the value of the slot, and skips the removal
of the handler frame and the pruning of the ticket: the registers are the ones
reloaded from the shadow copy (so `maxfr` and `curfr` are the values the jump
came with, and the real registers are unchanged when the jump did not clobber
them), and the shadow copy, the frame slots and the trail are untouched. -/
theorem resume_returns_exception (b : Build) (l : Locals) (e : MercuryEngine)
    (hcatch : l.catch_exceptions = true) (hexc : e.MR_eng_exception ≠ NULL) :
    (MR_call_engine_resume b l e).2 = e.MR_eng_exception ∧
    (MR_call_engine_resume b l e).1.reg Reg.maxfr = e.MR_fake_reg Reg.maxfr ∧
    (MR_call_engine_resume b l e).1.reg Reg.curfr = e.MR_fake_reg Reg.curfr ∧
    (MR_call_engine_resume b l e).1.reg = e.MR_fake_reg ∧
    (e.reg = e.MR_fake_reg → (MR_call_engine_resume b l e).1.reg = e.reg) ∧
    (MR_call_engine_resume b l e).1.MR_fake_reg = e.MR_fake_reg ∧
    (MR_call_engine_resume b l e).1.prevfr_slot = e.prevfr_slot ∧
    (MR_call_engine_resume b l e).1.succfr_slot = e.succfr_slot ∧
    (MR_call_engine_resume b l e).1.MR_ticket_counter = e.MR_ticket_counter ∧
    (MR_call_engine_resume b l e).1.trail_entries = e.trail_entries ∧
    (MR_call_engine_resume b l e).1.MR_eng_exception = e.MR_eng_exception := by
  cases hp : b.MR_MPROF_PROFILE_TIME <;>
    simp [MR_call_engine_resume, MR_restore_registers, hcatch, hexc, hp] <;>
    intro h1 <;> exact h1.symm

/-- The sample state, whose exception slot holds 77, resumed with
`catch_exceptions` true: 77 is returned and the trail keeps its ticket. -/
theorem resume_returns_exception_witness :
    (MR_call_engine_resume sample_build sample_locals sample_engine).2 = 77 ∧
    (MR_call_engine_resume sample_build sample_locals sample_engine).1.MR_ticket_counter = 1 :=
  have h := resume_returns_exception sample_build sample_locals sample_engine rfl
    (by decide)
  ⟨h.1, h.2.2.2.2.2.2.2.2.1⟩

/-- C3: resumed with `catch_exceptions` false, `MR_call_engine` returns `NULL`
whatever the exception slot holds and does not read the slot (putting any
other value in it changes neither the result nor anything else of the state
left behind); `maxfr`, `curfr` and the other registers are the ones reloaded
from the shadow copy, and the shadow copy, the frame slots and the trail are
untouched. -/
theorem resume_without_catch (b : Build) (l : Locals) (e : MercuryEngine)
    (hcatch : l.catch_exceptions = false) :
    (MR_call_engine_resume b l e).2 = NULL ∧
    (∀ x : MR_Word,
      MR_call_engine_resume b l { e with MR_eng_exception := x } =
        ({ (MR_call_engine_resume b l e).1 with MR_eng_exception := x }, NULL)) ∧
    (MR_call_engine_resume b l e).1.reg Reg.maxfr = e.MR_fake_reg Reg.maxfr ∧
    (MR_call_engine_resume b l e).1.reg Reg.curfr = e.MR_fake_reg Reg.curfr ∧
    (MR_call_engine_resume b l e).1.reg = e.MR_fake_reg ∧
    (e.reg = e.MR_fake_reg → (MR_call_engine_resume b l e).1.reg = e.reg) ∧
    (MR_call_engine_resume b l e).1.MR_fake_reg = e.MR_fake_reg ∧
    (MR_call_engine_resume b l e).1.prevfr_slot = e.prevfr_slot ∧
    (MR_call_engine_resume b l e).1.succfr_slot = e.succfr_slot ∧
    (MR_call_engine_resume b l e).1.MR_ticket_counter = e.MR_ticket_counter ∧
    (MR_call_engine_resume b l e).1.trail_entries = e.trail_entries ∧
    (MR_call_engine_resume b l e).1.MR_eng_exception = e.MR_eng_exception := by
  cases hp : b.MR_MPROF_PROFILE_TIME <;>
    simp [MR_call_engine_resume, MR_restore_registers, hcatch, hp] <;>
    intro h1 <;> exact h1.symm

/-- The sample state, whose exception slot holds 77, resumed with
`catch_exceptions` false: `NULL` is returned. -/
theorem resume_without_catch_witness :
    (MR_call_engine_resume sample_build { sample_locals with catch_exceptions := false }
      sample_engine).2 = 0 :=
  (resume_without_catch sample_build { sample_locals with catch_exceptions := false }
    sample_engine rfl).1

/-- C4: resumed with `catch_exceptions` true and an empty exception slot,
`MR_call_engine` returns `NULL` after removing the handler frame: with `F` the
value of `curfr` at the resumption (the one reloaded from the shadow copy), the
new `maxfr` is the prevfr slot of `F`, the new `curfr` is the succfr slot of
the same `F`, the other registers are the reloaded ones, and (in a build with
the trail) one ticket is pruned while the recorded bindings are kept; without
the trail the ticket counter is not touched either. -/
theorem resume_removes_handler_frame (b : Build) (l : Locals) (e : MercuryEngine)
    (hcatch : l.catch_exceptions = true) (hexc : e.MR_eng_exception = NULL) :
    (MR_call_engine_resume b l e).2 = NULL ∧
    (MR_call_engine_resume b l e).1.reg Reg.maxfr = e.prevfr_slot (e.MR_fake_reg Reg.curfr) ∧
    (MR_call_engine_resume b l e).1.reg Reg.curfr = e.succfr_slot (e.MR_fake_reg Reg.curfr) ∧
    (∀ x, x ≠ Reg.maxfr → x ≠ Reg.curfr →
      (MR_call_engine_resume b l e).1.reg x = e.MR_fake_reg x) ∧
    (MR_call_engine_resume b l e).1.trail_entries = e.trail_entries ∧
    (MR_call_engine_resume b l e).1.MR_ticket_counter =
      (if b.MR_USE_TRAIL then (e.MR_ticket_counter + 2 ^ b.wordBits - 1) % 2 ^ b.wordBits
       else e.MR_ticket_counter) ∧
    (MR_call_engine_resume b l e).1.MR_fake_reg = e.MR_fake_reg ∧
    (MR_call_engine_resume b l e).1.prevfr_slot = e.prevfr_slot ∧
    (MR_call_engine_resume b l e).1.succfr_slot = e.succfr_slot := by
  cases hp : b.MR_MPROF_PROFILE_TIME <;> cases ht : b.MR_USE_TRAIL <;>
    simp [MR_call_engine_resume, MR_restore_registers, MR_prune_ticket, hcatch, hexc, hp, ht,
      Function.update] <;>
    intro x h1 h2 <;> simp [h1, h2]

/-- The sample state with its exception slot emptied, resumed with
`catch_exceptions` true: `NULL` is returned, `maxfr` becomes 10 and `curfr`
becomes 4 (the slots of the frame at 20), the ticket is pruned and the binding
stays on the trail. -/
theorem resume_removes_handler_frame_witness :
    (MR_call_engine_resume sample_build sample_locals
      { sample_engine with MR_eng_exception := 0, MR_fake_reg := sample_regs }).2 = 0 ∧
    (MR_call_engine_resume sample_build sample_locals
      { sample_engine with MR_eng_exception := 0, MR_fake_reg := sample_regs }).1.reg Reg.maxfr
        = 10 ∧
    (MR_call_engine_resume sample_build sample_locals
      { sample_engine with MR_eng_exception := 0, MR_fake_reg := sample_regs }).1.reg Reg.curfr
        = 4 ∧
    (MR_call_engine_resume sample_build sample_locals
      { sample_engine with MR_eng_exception := 0, MR_fake_reg := sample_regs }).1.trail_entries
        = [(40, 0)] :=
  have h := resume_removes_handler_frame sample_build sample_locals
    { sample_engine with MR_eng_exception := 0, MR_fake_reg := sample_regs } rfl rfl
  ⟨h.1, h.2.1, h.2.2.1, h.2.2.2.2.1⟩

/-! ### Registers across the non-local exit -/

/-- C6, as stated, fails: the sample state reaches the portable done block with
`maxfr` = 30 and `curfr` = 20; after the jump and the resumption with
`catch_exceptions` true the real `maxfr` is 10 and the real `curfr` is 4 (the
handler frame was removed after the registers were reloaded), while the shadow
copy still holds 30 and 20: the two register files differ, and the real one
does not hold the values it had at the done block. -/
theorem register_round_trip_counterexample :
    done_block sample_build sample_engine = some (engine_done sample_engine) ∧
    sample_engine.reg Reg.maxfr = 30 ∧ sample_engine.reg Reg.curfr = 20 ∧
    (MR_call_engine_resume sample_build sample_locals
      (longjmp sample_clobber (engine_done sample_engine))).1.reg Reg.maxfr = 10 ∧
    (MR_call_engine_resume sample_build sample_locals
      (longjmp sample_clobber (engine_done sample_engine))).1.reg Reg.curfr = 4 ∧
    (MR_call_engine_resume sample_build sample_locals
      (longjmp sample_clobber (engine_done sample_engine))).1.MR_fake_reg Reg.maxfr = 30 ∧
    (MR_call_engine_resume sample_build sample_locals
      (longjmp sample_clobber (engine_done sample_engine))).1.MR_fake_reg Reg.curfr = 20 ∧
    (MR_call_engine_resume sample_build sample_locals
      (longjmp sample_clobber (engine_done sample_engine))).1.reg ≠
    (MR_call_engine_resume sample_build sample_locals
      (longjmp sample_clobber (engine_done sample_engine))).1.MR_fake_reg := by
  refine ⟨rfl, rfl, rfl, rfl, rfl, rfl, rfl, ?_⟩
  intro h
  have h1 := congrFun h Reg.maxfr
  have h2 : (MR_call_engine_resume sample_build sample_locals
      (longjmp sample_clobber (engine_done sample_engine))).1.reg Reg.maxfr = 10 := rfl
  have h3 : (MR_call_engine_resume sample_build sample_locals
      (longjmp sample_clobber (engine_done sample_engine))).1.MR_fake_reg Reg.maxfr = 30 := rfl
  rw [h2, h3] at h1
  exact absurd h1 (by decide)

/-- C6, amended: for every call that completes through the done block and every
way the jump clobbers the real registers, after `MR_call_engine` returns the
shadow copy holds the real register values of the moment the done block was
reached; with `catch_exceptions` false the real registers hold them too; with
`catch_exceptions` true the real registers hold them except for `maxfr` and
`curfr`, which hold the prevfr and succfr slots of the frame `curfr` pointed
to at the done block. -/
theorem register_round_trip (b : Build) (l : Locals) (clobber : RegFile) (e : MercuryEngine) :
    match done_block b e with
    | none => True
    | some e1 =>
      (MR_call_engine_resume b l (longjmp clobber e1)).1.MR_fake_reg = e.reg ∧
      (l.catch_exceptions = false →
        (MR_call_engine_resume b l (longjmp clobber e1)).1.reg = e.reg) ∧
      (l.catch_exceptions = true →
        (∀ x, x ≠ Reg.maxfr → x ≠ Reg.curfr →
          (MR_call_engine_resume b l (longjmp clobber e1)).1.reg x = e.reg x) ∧
        (MR_call_engine_resume b l (longjmp clobber e1)).1.reg Reg.maxfr =
          e.prevfr_slot (e.reg Reg.curfr) ∧
        (MR_call_engine_resume b l (longjmp clobber e1)).1.reg Reg.curfr =
          e.succfr_slot (e.reg Reg.curfr)) := by
  cases hd : done_block b e with
  | none => trivial
  | some e1 =>
    have hfake := done_block_registers b e e1 hd
    obtain ⟨_, h2, h3, h4, h5⟩ := hfake
    have hlj : (longjmp clobber e1).MR_fake_reg = e.reg := h2
    have hexc : (longjmp clobber e1).MR_eng_exception = NULL := h3
    refine ⟨?_, ?_, ?_⟩
    · cases hc : l.catch_exceptions
      · rw [(resume_fake_reg_unchanged b l (longjmp clobber e1))]
        exact hlj
      · rw [(resume_fake_reg_unchanged b l (longjmp clobber e1))]
        exact hlj
    · intro hc
      rw [resume_reg_without_catch b l _ hc]
      exact hlj
    · intro hc
      have h := resume_reg_with_catch b l (longjmp clobber e1) hc hexc
      rw [hlj] at h
      have h4l : (longjmp clobber e1).prevfr_slot = e.prevfr_slot := h4
      have h5l : (longjmp clobber e1).succfr_slot = e.succfr_slot := h5
      rw [h4l, h5l] at h
      exact ⟨h.2.2, h.1, h.2.1⟩

/-- The sample state through the portable done block, the jump and the
resumption with `catch_exceptions` false: the real registers are the ones of
the done block again. -/
theorem register_round_trip_witness :
    (done_block sample_build sample_engine).map
      (fun e1 => (MR_call_engine_resume sample_build
        { sample_locals with catch_exceptions := false }
        (longjmp sample_clobber e1)).1.MR_fake_reg Reg.maxfr) = some 30 := by
  have h := register_round_trip sample_build { sample_locals with catch_exceptions := false }
    sample_clobber sample_engine
  have hd : done_block sample_build sample_engine = some (engine_done sample_engine) := rfl
  rw [hd] at h ⊢
  simp only [Option.map_some']
  rw [h.1]
  rfl

/-! ### The chain of non-local-return targets -/

/-- The entry code installs the buffer of the invocation and remembers the
target it found. -/
theorem entry_target (b : Build) (create_handler : MercuryEngine → MercuryEngine)
    (buf : JmpBufPtr) (entry_point : MR_Code) (c : Bool) (e : MercuryEngine) :
    (MR_call_engine_entry b create_handler buf entry_point c e).1.MR_eng_jmp_buf = buf ∧
    (MR_call_engine_entry b create_handler buf entry_point c e).2.prev_jmp_buf
      = e.MR_eng_jmp_buf ∧
    (MR_call_engine_entry b create_handler buf entry_point c e).2.curr_jmp_buf = buf := by
  refine ⟨?_, rfl, rfl⟩
  simp only [MR_call_engine_entry]
  cases b.MR_MPROF_PROFILE_TIME <;> cases b.MR_MPROF_PROFILE_CALLS <;> cases c <;>
    simp <;> split <;> rfl

/-- The start of `call_engine_inner` does not assign the target. -/
theorem inner_start_target (b : Build) (done_addr : MR_Code) (e : MercuryEngine) :
    (call_engine_inner_start b done_addr e).MR_eng_jmp_buf = e.MR_eng_jmp_buf := by
  simp only [call_engine_inner_start, call_engine_inner_gcc_start, engine_init_registers]
  split
  · split <;> rfl
  · rfl

/-- The resumption installs the remembered target. -/
theorem resume_target (b : Build) (l : Locals) (e : MercuryEngine) :
    (MR_call_engine_resume b l e).1.MR_eng_jmp_buf = l.prev_jmp_buf := by
  cases hp : b.MR_MPROF_PROFILE_TIME <;> cases ht : b.MR_USE_TRAIL <;>
    cases hc : l.catch_exceptions <;>
    by_cases hx : e.MR_eng_exception = NULL <;>
    simp [MR_call_engine_resume, MR_restore_registers, MR_prune_ticket, hp, ht, hc, hx]

/-- The exit bookkeeping does not assign the target. -/
theorem exit_bookkeeping_target (b : Build) (e e1 : MercuryEngine)
    (h : exit_bookkeeping b e = some e1) : e1.MR_eng_jmp_buf = e.MR_eng_jmp_buf := by
  unfold exit_bookkeeping at h
  split at h
  · cases h
  · split at h <;> cases h <;> rfl

/-- The done block does not assign the target. -/
theorem done_block_target (b : Build) (e e1 : MercuryEngine)
    (h : done_block b e = some e1) : e1.MR_eng_jmp_buf = e.MR_eng_jmp_buf := by
  unfold done_block at h
  split at h
  · unfold engine_done_label at h
    split at h
    · cases h
    · rename_i e2 h2
      cases h
      split at h2
      · exact exit_bookkeeping_target b e e2 h2
      · cases h2
        rfl
  · cases h
    rfl

/-- Leaving the loop does not assign the target when the unwinding keeps it. -/
theorem leave_loop_target (b : Build) (leave : Leave) (e e1 : MercuryEngine)
    (hk : match leave with
      | Leave.done _ => True
      | Leave.throw _ unwind _ => ∀ e, (unwind e).MR_eng_jmp_buf = e.MR_eng_jmp_buf)
    (h : leave_loop b leave e = some e1) : e1.MR_eng_jmp_buf = e.MR_eng_jmp_buf := by
  cases leave with
  | done clobber =>
    simp only [leave_loop] at h
    split at h
    · cases h
    · rename_i e2 h2
      cases h
      exact done_block_target b e e2 h2
  | throw exception unwind clobber =>
    simp only [leave_loop] at h
    cases h
    exact hk e

/-- Where no assertion is compiled in, the done block reaches its exit. -/
theorem done_block_total (b : Build) (e : MercuryEngine)
    (hb : b.MR_USE_GCC_NONLOCAL_GOTOS = false ∨ b.MR_THREAD_SAFE = false ∨ b.NDEBUG = true) :
    (done_block b e).isSome = true := by
  cases hg : b.MR_USE_GCC_NONLOCAL_GOTOS <;> cases ht : b.MR_THREAD_SAFE <;>
    cases hn : b.NDEBUG <;> cases hs : e.MR_eng_saved_owners <;>
    simp_all [done_block, engine_done_label, exit_bookkeeping]

/-- Where no assertion is compiled in, the loop is left. -/
theorem leave_loop_total (b : Build) (leave : Leave) (e : MercuryEngine)
    (hb : b.MR_USE_GCC_NONLOCAL_GOTOS = false ∨ b.MR_THREAD_SAFE = false ∨ b.NDEBUG = true) :
    (leave_loop b leave e).isSome = true := by
  cases leave with
  | done clobber =>
    have h := done_block_total b e hb
    simp only [leave_loop]
    cases hd : done_block b e with
    | none => rw [hd] at h; cases h
    | some e1 => rfl
  | throw exception unwind clobber => rfl

/-- The three facts about a run, proved together by induction on the run. -/
theorem exec_targets (b : Build) (create_handler : MercuryEngine → MercuryEngine)
    (done_addr : MR_Code) (r : Run) :
    keeps_target r → ∀ e : MercuryEngine,
      targets_ok b create_handler done_addr e.MR_eng_jmp_buf r e = true ∧
      (∀ e1, exec b create_handler done_addr r e = some e1 →
        e1.MR_eng_jmp_buf = e.MR_eng_jmp_buf) ∧
      ((b.MR_USE_GCC_NONLOCAL_GOTOS = false ∨ b.MR_THREAD_SAFE = false ∨ b.NDEBUG = true) →
        (exec b create_handler done_addr r e).isSome = true) := by
  induction r with
  | stop =>
    intro _ e
    refine ⟨by simp [targets_ok], ?_, fun _ => rfl⟩
    intro e1 h
    simp only [exec] at h
    cases h
    rfl
  | code f rest ih =>
    intro hk e
    obtain ⟨hf, hrest⟩ := hk
    obtain ⟨h1, h2, h3⟩ := ih hrest (f e)
    rw [hf e] at h1 h2
    refine ⟨by simp [targets_ok, h1], ?_, ?_⟩
    · intro e1 h
      simp only [exec] at h
      exact h2 e1 h
    · intro hb
      simp only [exec]
      exact h3 hb
  | call buf entry_point c body leave rest ihb ihr =>
    intro hk e
    obtain ⟨hbody, hrest, hleave⟩ := hk
    obtain ⟨hent1, hent2, _⟩ := entry_target b create_handler buf entry_point c e
    have hinner := inner_start_target b done_addr
      (MR_call_engine_entry b create_handler buf entry_point c e).1
    rw [hent1] at hinner
    obtain ⟨b1, b2, b3⟩ := ihb hbody (call_engine_inner_start b done_addr
      (MR_call_engine_entry b create_handler buf entry_point c e).1)
    rw [hinner] at b1 b2
    have hres : ∀ e2, (MR_call_engine_resume b
        (MR_call_engine_entry b create_handler buf entry_point c e).2 e2).1.MR_eng_jmp_buf
          = e.MR_eng_jmp_buf := by
      intro e2
      rw [resume_target, hent2]
    refine ⟨?_, ?_, ?_⟩
    · simp only [targets_ok, b1, beq_self_eq_true, Bool.true_and]
      cases hx : exec b create_handler done_addr body (call_engine_inner_start b done_addr
          (MR_call_engine_entry b create_handler buf entry_point c e).1) with
      | none => rfl
      | some e1 =>
        show (match leave_loop b leave e1 with
          | none => true
          | some e2 => targets_ok b create_handler done_addr e.MR_eng_jmp_buf rest
              (MR_call_engine_resume b
                (MR_call_engine_entry b create_handler buf entry_point c e).2 e2).1) = true
        cases hl : leave_loop b leave e1 with
        | none => rfl
        | some e2 =>
          have h := (ihr hrest (MR_call_engine_resume b
            (MR_call_engine_entry b create_handler buf entry_point c e).2 e2).1).1
          rw [hres e2] at h
          exact h
    · intro e3 h
      simp only [exec] at h
      cases hx : exec b create_handler done_addr body (call_engine_inner_start b done_addr
          (MR_call_engine_entry b create_handler buf entry_point c e).1) with
      | none => simp [hx] at h
      | some e1 =>
        simp only [hx] at h
        cases hl : leave_loop b leave e1 with
        | none => simp [hl] at h
        | some e2 =>
          have ht : e2.MR_eng_jmp_buf = buf := by
            rw [leave_loop_target b leave e1 e2 hleave hl]
            exact b2 e1 hx
          simp only [hl, ht, if_true] at h
          have h4 := (ihr hrest (MR_call_engine_resume b
            (MR_call_engine_entry b create_handler buf entry_point c e).2 e2).1).2.1 e3 h
          rw [hres e2] at h4
          exact h4
    · intro hb
      simp only [exec]
      have hsome := b3 hb
      cases hx : exec b create_handler done_addr body (call_engine_inner_start b done_addr
          (MR_call_engine_entry b create_handler buf entry_point c e).1) with
      | none => rw [hx] at hsome; cases hsome
      | some e1 =>
        have hls := leave_loop_total b leave e1 hb
        cases hl : leave_loop b leave e1 with
        | none => rw [hl] at hls; cases hls
        | some e2 =>
          have ht : e2.MR_eng_jmp_buf = buf := by
            rw [leave_loop_target b leave e1 e2 hleave hl]
            exact b2 e1 hx
          simp only [hl, ht, if_true]
          exact (ihr hrest _).2.2 hb

/-- C5: for every build, engine state and nesting of calls of `MR_call_engine`
(with either value of `catch_exceptions`, each left through the done block or
through a throw), the code between calls leaving `MR_eng_jmp_buf` alone: the
entry code installs the buffer of the invocation and the resumption installs
the target found at the call; at every point of the run the target is the
buffer of the innermost running invocation; when the run is over the target is
the one it started with; and the run does come to its end in every build
without the ownership assertion. -/
theorem jmp_buf_chain_lifo (b : Build) (create_handler : MercuryEngine → MercuryEngine)
    (done_addr : MR_Code) (r : Run) (e : MercuryEngine) (hk : keeps_target r) :
    (∀ (buf : JmpBufPtr) (entry_point : MR_Code) (c : Bool) (e0 e2 : MercuryEngine),
      (MR_call_engine_entry b create_handler buf entry_point c e0).1.MR_eng_jmp_buf = buf ∧
      (call_engine_inner_start b done_addr
        (MR_call_engine_entry b create_handler buf entry_point c e0).1).MR_eng_jmp_buf = buf ∧
      (MR_call_engine_resume b
        (MR_call_engine_entry b create_handler buf entry_point c e0).2 e2).1.MR_eng_jmp_buf
          = e0.MR_eng_jmp_buf) ∧
    targets_ok b create_handler done_addr e.MR_eng_jmp_buf r e = true ∧
    (∀ e1, exec b create_handler done_addr r e = some e1 →
      e1.MR_eng_jmp_buf = e.MR_eng_jmp_buf) ∧
    ((b.MR_USE_GCC_NONLOCAL_GOTOS = false ∨ b.MR_THREAD_SAFE = false ∨ b.NDEBUG = true) →
      (exec b create_handler done_addr r e).isSome = true) := by
  refine ⟨?_, exec_targets b create_handler done_addr r hk e⟩
  intro buf entry_point c e0 e2
  obtain ⟨h1, h2, _⟩ := entry_target b create_handler buf entry_point c e0
  refine ⟨h1, ?_, ?_⟩
  · rw [inner_start_target, h1]
  · rw [resume_target, h2]

/-- The nested sample run from the sample state, whose target is 5000: the
target is right at every point and the run ends. -/
theorem jmp_buf_chain_lifo_witness :
    targets_ok sample_build id 999 5000 sample_run sample_engine = true ∧
    (exec sample_build id 999 sample_run sample_engine).isSome = true :=
  have hk : keeps_target sample_run :=
    ⟨⟨fun _ => rfl, ⟨fun _ => rfl, trivial⟩, ⟨fun _ => rfl, trivial⟩, fun _ => rfl⟩,
      ⟨fun _ => rfl, trivial⟩, trivial⟩
  have h := jmp_buf_chain_lifo sample_build id 999 sample_run sample_engine hk
  ⟨h.2.1, h.2.2.2 (Or.inl rfl)⟩

/-! ### Thread-ownership bookkeeping -/

/-- Undoing a decrement modulo `m`. -/
theorem depth_down (m a c : Nat) (hm : 0 < m) (h : a % m = (c + m - 1) % m) :
    (a + 1) % m = c % m := by
  have h1 : (a + 1) % m = (c + m - 1 + 1) % m := Nat.ModEq.add_right 1 h
  have h2 : c + m - 1 + 1 = c + m := by omega
  rw [h1, h2, Nat.add_mod_right]

/-- Undoing an increment modulo `m`. -/
theorem depth_up (m a c : Nat) (h : (a + 1) % m = (c + 1) % m) : a % m = c % m :=
  Nat.ModEq.add_right_cancel' 1 h

/-- What a properly nested sequence of events does to a state whose saved
owner list starts with the `n` owners pushed by the open entries: they are
popped, the owner of the context becomes the one saved by the outermost open
entry, and the depth goes down by `n` modulo the word size. -/
theorem events_run_nested (b : Build) (evs : List Event) :
    ∀ (n : Nat) (e e1 : MercuryEngine) (pre base : List MercuryThread),
      properly_nested n evs = true → pre.length = n →
      e.MR_eng_saved_owners = pre ++ base →
      events_run b evs e = some e1 →
      e1.MR_eng_saved_owners = base ∧
      e1.MR_ctxt_owner_thread = last_or e.MR_ctxt_owner_thread pre ∧
      (e1.MR_eng_c_depth + n) % 2 ^ b.wordBits = e.MR_eng_c_depth % 2 ^ b.wordBits ∧
      (e.MR_eng_c_depth < 2 ^ b.wordBits → e1.MR_eng_c_depth < 2 ^ b.wordBits) := by
  have hm : 0 < 2 ^ b.wordBits := by positivity
  induction evs with
  | nil =>
    intro n e e1 pre base hn hlen hs hr
    simp only [events_run] at hr
    cases hr
    have h0 : n = 0 := by simpa [properly_nested] using hn
    subst h0
    have hp : pre = [] := List.length_eq_zero.mp hlen
    subst hp
    exact ⟨by simpa using hs, rfl, rfl, fun h => h⟩
  | cons ev rest ih =>
    intro n e e1 pre base hn hlen hs hr
    cases ev with
    | enter =>
      simp only [events_run, event_step] at hr
      have hn1 : properly_nested (n + 1) rest = true := by simpa [properly_nested] using hn
      obtain ⟨h1, h2, h3, h4⟩ := ih (n + 1) (enter_bookkeeping b e) e1
        (e.MR_ctxt_owner_thread :: pre) base hn1 (by simp [hlen])
        (by simp [enter_bookkeeping, hs]) hr
      refine ⟨h1, h2, ?_, fun _ => h4 (Nat.mod_lt _ hm)⟩
      have h5 : (e1.MR_eng_c_depth + n + 1) % 2 ^ b.wordBits =
          (e.MR_eng_c_depth + 1) % 2 ^ b.wordBits := by
        simpa [enter_bookkeeping, Nat.add_assoc] using h3
      exact depth_up _ _ _ h5
    | leave =>
      cases n with
      | zero => simp [properly_nested] at hn
      | succ k =>
        have hn1 : properly_nested k rest = true := by simpa [properly_nested] using hn
        cases pre with
        | nil => simp at hlen
        | cons v pre2 =>
          simp only [events_run, event_step] at hr
          cases hx : exit_bookkeeping b e with
          | none => simp [hx] at hr
          | some e2 =>
            simp only [hx] at hr
            have he2 : e2.MR_eng_saved_owners = pre2 ++ base ∧ e2.MR_ctxt_owner_thread = v ∧
                e2.MR_eng_c_depth = (e.MR_eng_c_depth + 2 ^ b.wordBits - 1) % 2 ^ b.wordBits := by
              unfold exit_bookkeeping at hx
              split at hx
              · cases hx
              · rw [hs] at hx
                simp only [List.cons_append] at hx
                cases hx
                exact ⟨rfl, rfl, rfl⟩
            obtain ⟨h1, h2, h3, h4⟩ := ih k e2 e1 pre2 base hn1 (by simpa using hlen)
              he2.1 hr
            refine ⟨h1, ?_, ?_, fun _ => h4 (by rw [he2.2.2]; exact Nat.mod_lt _ hm)⟩
            · rw [h2, he2.2.1]
              rfl
            · rw [he2.2.2, Nat.mod_mod] at h3
              exact depth_down _ _ _ hm h3
    | other o =>
      cases n with
      | zero => simp [properly_nested] at hn
      | succ k =>
        have hn1 : properly_nested (k + 1) rest = true := by simpa [properly_nested] using hn
        simp only [events_run, event_step] at hr
        cases pre with
        | nil => simp at hlen
        | cons v pre2 =>
          obtain ⟨h1, h2, h3, h4⟩ := ih (k + 1) { e with MR_ctxt_owner_thread := o } e1
            (v :: pre2) base hn1 hlen hs hr
          exact ⟨h1, h2, h3, h4⟩

/-- With `NDEBUG` every sequence of events runs to its end. -/
theorem events_run_total_ndebug (b : Build) (hnd : b.NDEBUG = true) (evs : List Event) :
    ∀ e : MercuryEngine, (events_run b evs e).isSome = true := by
  induction evs with
  | nil => intro e; rfl
  | cons ev rest ih =>
    intro e
    cases ev with
    | enter => simpa [events_run, event_step] using ih _
    | leave =>
      cases hs : e.MR_eng_saved_owners <;>
        simp only [events_run, event_step, exit_bookkeeping, hnd, hs] <;> exact ih _
    | other o => simpa [events_run, event_step] using ih _

/-- A properly nested sequence of events in which the code between entries and
exits leaves the context with the engine's thread runs to its end: every exit
assertion holds. -/
theorem events_run_total (b : Build) (t : MercuryThread) (evs : List Event) :
    ∀ (n : Nat) (e : MercuryEngine) (pre base : List MercuryThread),
      properly_nested n evs = true → pre.length = n →
      e.MR_eng_saved_owners = pre ++ base →
      e.MR_eng_owner_thread = t →
      (∀ o, Event.other o ∈ evs → o = t) →
      all_but_last t pre →
      (0 < n → e.MR_ctxt_owner_thread = t) →
      (events_run b evs e).isSome = true := by
  induction evs with
  | nil => intro n e pre base _ _ _ _ _ _ _; rfl
  | cons ev rest ih =>
    intro n e pre base hn hlen hs ht ho hall hown
    have ho1 : ∀ o, Event.other o ∈ rest → o = t :=
      fun o h => ho o (List.mem_cons_of_mem _ h)
    cases ev with
    | enter =>
      simp only [events_run, event_step]
      have hn1 : properly_nested (n + 1) rest = true := by simpa [properly_nested] using hn
      refine ih (n + 1) (enter_bookkeeping b e) (e.MR_ctxt_owner_thread :: pre) base hn1
        (by simp [hlen]) (by simp [enter_bookkeeping, hs]) ht ho1 ?_ (fun _ => ht)
      cases pre with
      | nil => trivial
      | cons c l => exact ⟨hown (by rw [← hlen]; simp), hall⟩
    | leave =>
      cases n with
      | zero => simp [properly_nested] at hn
      | succ k =>
        have hn1 : properly_nested k rest = true := by simpa [properly_nested] using hn
        cases pre with
        | nil => simp at hlen
        | cons v pre2 =>
          have hx : exit_bookkeeping b e = some
              { e with
                MR_eng_c_depth := (e.MR_eng_c_depth + 2 ^ b.wordBits - 1) % 2 ^ b.wordBits
                MR_eng_saved_owners := pre2 ++ base
                MR_ctxt_owner_thread := v } := by
            simp [exit_bookkeeping, hs, hown (Nat.succ_pos k), ht]
          simp only [events_run, event_step, hx]
          refine ih k _ pre2 base hn1 (by simpa using hlen) rfl ht ho1 ?_ ?_
          · cases pre2 with
            | nil => trivial
            | cons c l => exact hall.2
          · intro hk
            cases pre2 with
            | nil => simp at hlen; omega
            | cons c l => exact hall.1
    | other o =>
      cases n with
      | zero => simp [properly_nested] at hn
      | succ k =>
        have hn1 : properly_nested (k + 1) rest = true := by simpa [properly_nested] using hn
        simp only [events_run, event_step]
        exact ih (k + 1) _ pre base hn1 hlen hs ht ho1 hall
          (fun _ => ho o (List.mem_cons_self _ _))

/-- C7: in a thread-safe build, for every engine state (its depth counter a
machine word) and every properly nested sequence of dispatch-loop entries and
exits, with code in between that may hand the context to another owner:
whenever the sequence runs to its end (the assertion holds at each exit), the
call-depth counter, the saved-owner list and the owner of the context are
exactly what they were before the outermost entry; and it does run to its end
when assertions are compiled out or the code in between leaves the context with
the engine's thread. -/
theorem ownership_restored (b : Build) (evs : List Event) (e : MercuryEngine)
    (hdepth : e.MR_eng_c_depth < 2 ^ b.wordBits) (hn : properly_nested 0 evs = true) :
    (∀ e1, events_run b evs e = some e1 →
      e1.MR_eng_c_depth = e.MR_eng_c_depth ∧
      e1.MR_eng_saved_owners = e.MR_eng_saved_owners ∧
      e1.MR_ctxt_owner_thread = e.MR_ctxt_owner_thread) ∧
    ((b.NDEBUG = true ∨ ∀ o, Event.other o ∈ evs → o = e.MR_eng_owner_thread) →
      (events_run b evs e).isSome = true) := by
  constructor
  · intro e1 hr
    obtain ⟨h1, h2, h3, h4⟩ := events_run_nested b evs 0 e e1 [] e.MR_eng_saved_owners hn rfl
      rfl hr
    refine ⟨?_, h1, h2⟩
    rw [Nat.add_zero, Nat.mod_eq_of_lt (h4 hdepth), Nat.mod_eq_of_lt hdepth] at h3
    exact h3
  · intro h
    cases h with
    | inl hnd => exact events_run_total_ndebug b hnd evs e
    | inr ho =>
      exact events_run_total b e.MR_eng_owner_thread evs 0 e [] e.MR_eng_saved_owners hn rfl
        rfl rfl ho trivial (fun h0 => absurd h0 (Nat.lt_irrefl 0))

/-- The sample sequence of nested calls on the sample state (depth 1, saved
owners `[3]`, context owned by 9) in a thread-safe gcc build with assertions:
it runs to its end and leaves depth 1, saved owners `[3]` and owner 9. -/
theorem ownership_restored_witness :
    (events_run sample_build_gcc sample_events sample_owned).map
      (fun e1 => (e1.MR_eng_c_depth, e1.MR_eng_saved_owners, e1.MR_ctxt_owner_thread))
      = some (1, [3], 9) := by
  have h := ownership_restored sample_build_gcc sample_events sample_owned
    (by norm_num [sample_owned, sample_build_gcc, sample_build]) rfl
  cases hx : events_run sample_build_gcc sample_events sample_owned with
  | none =>
    have h2 := h.2 (Or.inr (by
      intro o ho
      simp [sample_events] at ho
      rw [ho]
      rfl))
    rw [hx] at h2
    cases h2
  | some e1 =>
    obtain ⟨h1, h2, h3⟩ := h.1 e1 hx
    simp only [Option.map_some', h1, h2, h3]
    rfl

/-- The invariant of the bookkeeping is kept by every sequence of events in
which each exit has an earlier unmatched entry. -/
theorem events_run_matched (b : Build) (evs : List Event) :
    ∀ (n : Nat) (e e1 : MercuryEngine),
      exits_matched n evs = true → n ≤ e.MR_eng_saved_owners.length →
      e.MR_eng_c_depth = e.MR_eng_saved_owners.length % 2 ^ b.wordBits →
      events_run b evs e = some e1 →
      e1.MR_eng_c_depth = e1.MR_eng_saved_owners.length % 2 ^ b.wordBits := by
  have hm : 0 < 2 ^ b.wordBits := by positivity
  induction evs with
  | nil =>
    intro n e e1 _ _ hi hr
    simp only [events_run] at hr
    cases hr
    exact hi
  | cons ev rest ih =>
    intro n e e1 hn hle hi hr
    cases ev with
    | enter =>
      simp only [events_run, event_step] at hr
      refine ih (n + 1) (enter_bookkeeping b e) e1 (by simpa [exits_matched] using hn)
        (by simp [enter_bookkeeping, hle]) ?_ hr
      simp [enter_bookkeeping, hi]
    | leave =>
      cases n with
      | zero => simp [exits_matched] at hn
      | succ k =>
        cases hs : e.MR_eng_saved_owners with
        | nil => rw [hs] at hle; simp at hle
        | cons v next =>
          simp only [events_run, event_step] at hr
          cases hx : exit_bookkeeping b e with
          | none => simp [hx] at hr
          | some e2 =>
            simp only [hx] at hr
            have he2 : e2.MR_eng_saved_owners = next ∧
                e2.MR_eng_c_depth = (e.MR_eng_c_depth + 2 ^ b.wordBits - 1) % 2 ^ b.wordBits := by
              unfold exit_bookkeeping at hx
              split at hx
              · cases hx
              · rw [hs] at hx
                cases hx
                exact ⟨rfl, rfl⟩
            refine ih k e2 e1 (by simpa [exits_matched] using hn) ?_ ?_ hr
            · rw [he2.1]
              rw [hs] at hle
              simpa using hle
            · rw [he2.1, he2.2, hi, hs, List.length_cons]
              have h1 : (next.length + 1) % 2 ^ b.wordBits + 2 ^ b.wordBits - 1 =
                  (next.length + 1) % 2 ^ b.wordBits + (2 ^ b.wordBits - 1) := by omega
              rw [h1, Nat.mod_add_mod]
              have h2 : next.length + 1 + (2 ^ b.wordBits - 1) = next.length + 2 ^ b.wordBits := by
                omega
              rw [h2, Nat.add_mod_right]
    | other o =>
      simp only [events_run, event_step] at hr
      exact ih n { e with MR_ctxt_owner_thread := o } e1 (by simpa [exits_matched] using hn)
        hle hi hr

/-- C8, as stated, fails: from the state `MR_init_engine` leaves (depth 0, empty
list) one exit step gives depth `2^64 - 1` with the list still empty, in a
thread-safe 64-bit build; with assertions on when the fresh context is owned by
the engine's thread, and with `NDEBUG` whatever its owner. -/
theorem depth_equals_length_counterexample :
    (events_run sample_build_gcc [Event.leave]
        (MR_init_engine sample_build_gcc 1 1 sample_engine)).map
      (fun e1 => (e1.MR_eng_c_depth, e1.MR_eng_saved_owners.length))
      = some (18446744073709551615, 0) ∧
    (events_run { sample_build_gcc with NDEBUG := true } [Event.leave]
        (MR_init_engine { sample_build_gcc with NDEBUG := true } 1 0 sample_engine)).map
      (fun e1 => (e1.MR_eng_c_depth, e1.MR_eng_saved_owners.length))
      = some (18446744073709551615, 0) := by
  constructor <;> rfl

/-- C8, amended: in a thread-safe build, in every state reachable from engine
initialisation by a sequence of entry steps, exit steps and code in between in
which every exit step has an earlier unmatched entry (so that it finds the
list non-empty), the call-depth counter equals the length of the saved-owner
list modulo the word size, hence equals it as long as the length fits a
machine word. -/
theorem depth_equals_length (b : Build) (self ctxt_owner : MercuryThread)
    (e0 e1 : MercuryEngine) (evs : List Event)
    (hts : b.MR_THREAD_SAFE = true) (hm : exits_matched 0 evs = true)
    (hr : events_run b evs (MR_init_engine b self ctxt_owner e0) = some e1) :
    e1.MR_eng_c_depth = e1.MR_eng_saved_owners.length % 2 ^ b.wordBits ∧
    (e1.MR_eng_saved_owners.length < 2 ^ b.wordBits →
      e1.MR_eng_c_depth = e1.MR_eng_saved_owners.length) := by
  have h := events_run_matched b evs 0 (MR_init_engine b self ctxt_owner e0) e1 hm
    (Nat.zero_le _) (by simp [MR_init_engine, hts]) hr
  exact ⟨h, fun hlt => by rw [h, Nat.mod_eq_of_lt hlt]⟩

/-- Two nested entries and one exit after initialisation: depth 1, one saved
owner. -/
theorem depth_equals_length_witness :
    (enter_bookkeeping sample_build_gcc
      (MR_init_engine sample_build_gcc 1 0 sample_engine)).MR_eng_c_depth = 1 :=
  (depth_equals_length sample_build_gcc 1 0 sample_engine
    (enter_bookkeeping sample_build_gcc (MR_init_engine sample_build_gcc 1 0 sample_engine))
    [Event.enter, Event.enter, Event.leave] rfl rfl rfl).2 (by
      show 1 < 2 ^ 64
      norm_num)

/-! ### The buffer of previous locations -/

/-- Recording keeps the buffer 40 entries long and the index below 40. -/
theorem record_location_bounds (p : PrevLocations) (fp : MR_Code)
    (hlen : p.prev_fps.length = 40) (hidx : p.prev_fp_index < 40) :
    (record_location p fp).prev_fps.length = 40 ∧ (record_location p fp).prev_fp_index < 40 := by
  simp only [record_location, NUM_PREV_FPS, List.length_set]
  refine ⟨hlen, ?_⟩
  split <;> omega

/-- Recording a location drops the oldest listed location and lists the new
one last. -/
theorem dump_loop_record (p : PrevLocations) (fp : MR_Code)
    (hlen : p.prev_fps.length = 40) (hidx : p.prev_fp_index < 40) :
    dump_loop (record_location p fp) = (dump_loop p).tail ++ [fp] := by
  apply List.ext_getElem
  · simp [dump_loop, NUM_PREV_FPS]
  · intro n h1 h2
    have hn : n < 40 := by simpa [dump_loop, NUM_PREV_FPS] using h1
    simp only [dump_loop, NUM_PREV_FPS, List.getElem_map, List.getElem_range, record_location,
      List.getD_eq_getElem?_getD, List.getElem?_set, hlen, hidx, if_true]
    by_cases h39 : n < 39
    · rw [List.getElem_append_left (by simp; omega)]
      simp only [List.getElem_tail, List.getElem_map, List.getElem_range,
        List.getD_eq_getElem?_getD]
      have hne : ¬ p.prev_fp_index =
          (n + if p.prev_fp_index + 1 ≥ 40 then 0 else p.prev_fp_index + 1) % 40 := by
        split <;> omega
      have heq : (n + if p.prev_fp_index + 1 ≥ 40 then 0 else p.prev_fp_index + 1) % 40 =
          (n + 1 + p.prev_fp_index) % 40 := by
        split <;> omega
      rw [if_neg hne, heq]
    · have hn39 : n = 39 := by omega
      subst hn39
      have heq : p.prev_fp_index =
          (39 + if p.prev_fp_index + 1 ≥ 40 then 0 else p.prev_fp_index + 1) % 40 := by
        split <;> omega
      rw [if_pos heq]
      rw [List.getElem_append_right (by simp)]
      simp

/-- After recording a sequence the loop lists the locations it listed before
followed by the sequence, less as many of the oldest as were recorded. -/
theorem dump_loop_foldl (seq : List MR_Code) :
    ∀ p : PrevLocations, p.prev_fps.length = 40 → p.prev_fp_index < 40 →
      dump_loop (seq.foldl record_location p) = (dump_loop p ++ seq).drop seq.length := by
  induction seq with
  | nil => intro p _ _; simp
  | cons x xs ih =>
    intro p hlen hidx
    obtain ⟨h1, h2⟩ := record_location_bounds p x hlen hidx
    rw [List.foldl_cons, ih _ h1 h2, dump_loop_record p x hlen hidx]
    have hne : dump_loop p ≠ [] := by
      intro h
      have := congrArg List.length h
      simp [dump_loop, NUM_PREV_FPS] at this
    cases hd : dump_loop p with
    | nil => exact absurd hd hne
    | cons a t => simp

/-- The recording loop records the blocks it invokes, in order. -/
theorem recording_path_records {σ : Type} (blocks : MR_Code → σ → Outcome σ) (n : Nat) :
    ∀ (p : PrevLocations) (d : Dispatch σ),
      (recording_path blocks n (p, d)).1 = (invoked blocks n d).foldl record_location p := by
  induction n with
  | zero => intro p d; rfl
  | succ n ih =>
    intro p d
    cases d with
    | running s fp =>
      simp only [recording_path, recording_body, invoked, List.foldl_cons]
      exact ih _ _
    | left s =>
      simp only [recording_path, recording_body, invoked, List.foldl_nil]
      rw [ih]
      cases n <;> rfl

/-- C9, as stated, fails: in a build without `MR_DEBUG_GOTOS`, when
`MR_tracedebug` is off, `MR_dump_prev_locations` lists nothing, both on the
initial buffer (nothing recorded), where the last 40 elements of the history
are the 40 null entries, and after two locations were recorded. -/
theorem dump_prev_locations_counterexample :
    MR_dump_prev_locations sample_build false
      (List.foldl record_location prev_locations_init []) = [] ∧
    (List.replicate 40 NULL ++ ([] : List MR_Code)).drop
      ((List.replicate 40 NULL ++ ([] : List MR_Code)).length - 40) = List.replicate 40 0 ∧
    MR_dump_prev_locations sample_build false
      (List.foldl record_location prev_locations_init []) ≠
      (List.replicate 40 NULL ++ ([] : List MR_Code)).drop
        ((List.replicate 40 NULL ++ ([] : List MR_Code)).length - 40) ∧
    MR_dump_prev_locations sample_build false
      (List.foldl record_location prev_locations_init [901, 902]) = [] ∧
    (List.replicate 40 NULL ++ [901, 902]).drop
      ((List.replicate 40 NULL ++ [901, 902]).length - 40) = List.replicate 38 0 ++ [901, 902] := by
  refine ⟨rfl, by decide, by decide, rfl, by decide⟩

/-- C9, amended: for every sequence of block addresses recorded from the
initial buffer, `MR_dump_prev_locations`, when its body is enabled (the build
has `MR_DEBUG_GOTOS`, or `MR_tracedebug` is set at the dump), lists exactly
the last 40 elements of (40 null entries followed by the recorded sequence),
oldest first, so for 40 or more recorded addresses exactly the last 40 of
them; when its body is not enabled it lists nothing. The sequence recorded by
the recording loop is the sequence of the blocks it invokes, and the buffer is
carried from one call to the next. -/
theorem dump_prev_locations_lists_last_40 (b : Build) (MR_tracedebug : Bool)
    (seq : List MR_Code) :
    MR_dump_prev_locations b MR_tracedebug (seq.foldl record_location prev_locations_init) =
      (if b.MR_DEBUG_GOTOS || MR_tracedebug then
        (List.replicate 40 NULL ++ seq).drop ((List.replicate 40 NULL ++ seq).length - 40)
      else []) ∧
    (40 ≤ seq.length →
      MR_dump_prev_locations b MR_tracedebug (seq.foldl record_location prev_locations_init) =
        (if b.MR_DEBUG_GOTOS || MR_tracedebug then seq.drop (seq.length - 40) else [])) ∧
    (∀ (σ : Type) (blocks : MR_Code → σ → Outcome σ) (n : Nat) (p : PrevLocations)
        (d : Dispatch σ),
      (recording_path blocks n (p, d)).1 = (invoked blocks n d).foldl record_location p) ∧
    (∀ seq2 : List MR_Code,
      (seq ++ seq2).foldl record_location prev_locations_init =
        seq2.foldl record_location (seq.foldl record_location prev_locations_init)) := by
  have hinit : dump_loop prev_locations_init = List.replicate 40 NULL := by decide
  have hlist : dump_loop (seq.foldl record_location prev_locations_init) =
      (List.replicate 40 NULL ++ seq).drop ((List.replicate 40 NULL ++ seq).length - 40) := by
    rw [dump_loop_foldl seq prev_locations_init (by decide) (by decide), hinit]
    simp
  refine ⟨?_, ?_, fun σ blocks n p d => recording_path_records blocks n p d,
    fun seq2 => List.foldl_append _ _ _ _⟩
  · simp only [MR_dump_prev_locations, hlist]
  · intro h40
    simp only [MR_dump_prev_locations, hlist]
    split
    · have h1 : (List.replicate 40 NULL ++ seq).length - 40 = 40 + (seq.length - 40) := by
        simp
        omega
      rw [h1]
      have h2 := @List.drop_append _ (List.replicate 40 NULL) seq (seq.length - 40)
      simp only [List.length_replicate] at h2
      exact h2
    · rfl

/-- Forty-one locations recorded, the dump enabled: the first one is gone and
the other forty are listed in the order recorded. -/
theorem dump_prev_locations_lists_last_40_witness :
    MR_dump_prev_locations sample_build true
      ((List.range 41).foldl record_location prev_locations_init) =
      (List.range 41).drop 1 :=
  (dump_prev_locations_lists_last_40 sample_build true (List.range 41)).2.1 (by decide)

/-! ### The two paths of the portable dispatch loop -/

/-- The tight loop, `k` times round, is the statement `8 * k` times. -/
theorem tight_path_iterate {σ : Type} (blocks : MR_Code → σ → Outcome σ) (k : Nat) :
    ∀ d : Dispatch σ, tight_path blocks k d = (invoke blocks)^[8 * k] d := by
  induction k with
  | zero => intro d; rfl
  | succ k ih =>
    intro d
    have h : 8 * (k + 1) = 8 * k + 8 := by ring
    rw [h, Function.iterate_add_apply]
    simp only [tight_path]
    rw [ih]
    rfl

/-- The recording loop, `n` times round, leaves the loop state the statement
leaves after `n` times. -/
theorem recording_path_iterate {σ : Type} (blocks : MR_Code → σ → Outcome σ) (n : Nat) :
    ∀ (p : PrevLocations) (d : Dispatch σ),
      (recording_path blocks n (p, d)).2 = (invoke blocks)^[n] d := by
  induction n with
  | zero => intro p d; rfl
  | succ n ih =>
    intro p d
    rw [Function.iterate_succ_apply]
    cases d with
    | running s fp =>
      simp only [recording_path, recording_body]
      exact ih _ _
    | left s =>
      simp only [recording_path, recording_body]
      rw [ih]
      rfl

/-- Nothing is invoked once the loop is left. -/
theorem invoked_left {σ : Type} (blocks : MR_Code → σ → Outcome σ) (n : Nat) (s : σ) :
    invoked blocks n (Dispatch.left s) = [] := by
  cases n <;> rfl

/-- The statement over the logging semantics: it does to the machine state what
the statement does, and the log grows by the blocks invoked. -/
theorem invoke_logging {σ : Type} (blocks : MR_Code → σ → Outcome σ) (n : Nat) :
    ∀ d : Dispatch (σ × List MR_Code),
      ((invoke (logging blocks))^[n] d).erase = (invoke blocks)^[n] d.erase ∧
      ((invoke (logging blocks))^[n] d).log = d.log ++ invoked blocks n d.erase := by
  induction n with
  | zero => intro d; simp [invoked]
  | succ n ih =>
    intro d
    rw [Function.iterate_succ_apply, Function.iterate_succ_apply]
    cases d with
    | left s =>
      obtain ⟨h1, h2⟩ := ih (Dispatch.left s)
      refine ⟨h1, ?_⟩
      rw [show invoke (logging blocks) (Dispatch.left s) = Dispatch.left s from rfl, h2]
      simp [Dispatch.erase, invoked_left]
    | running s fp =>
      obtain ⟨s0, log⟩ := s
      cases hb : blocks fp s0 with
      | next s1 fp1 =>
        have hi : invoke (logging blocks) (Dispatch.running (s0, log) fp) =
            Dispatch.running (s1, log ++ [fp]) fp1 := by
          simp [invoke, logging, hb]
        have hj : invoke blocks (Dispatch.running s0 fp) = Dispatch.running s1 fp1 := by
          simp [invoke, hb]
        obtain ⟨h1, h2⟩ := ih (Dispatch.running (s1, log ++ [fp]) fp1)
        rw [hi]
        refine ⟨?_, ?_⟩
        · rw [h1]
          simp [Dispatch.erase, hj]
        · rw [h2]
          simp [Dispatch.erase, Dispatch.log, invoked, hj]
      | jumped s1 =>
        have hi : invoke (logging blocks) (Dispatch.running (s0, log) fp) =
            Dispatch.left (s1, log ++ [fp]) := by
          simp [invoke, logging, hb]
        have hj : invoke blocks (Dispatch.running s0 fp) = Dispatch.left s1 := by
          simp [invoke, hb]
        obtain ⟨h1, h2⟩ := ih (Dispatch.left (s1, log ++ [fp]))
        rw [hi]
        refine ⟨?_, ?_⟩
        · rw [h1]
          simp [Dispatch.erase, hj]
        · rw [h2]
          simp [Dispatch.erase, Dispatch.log, invoked, hj]

/-- C10: in the portable dispatch loop, for every block semantics, machine
state, entry point and contents of the buffer: `k` rounds of the unrolled body
are `8 * k` rounds of the single statement; `n` rounds of the recording loop
leave the machine state and `fp` that `n` rounds of the single statement leave,
so `8 * k` recording rounds leave what `k` unrolled rounds leave, and
`call_engine_inner` with `MR_tracedebug` set differs from the one with it
clear only in `prev_fps` and `prev_fp_index`, which the tight path does not
touch; and both paths invoke the same blocks in the same order (the log kept
by the logging semantics is the same, namely the blocks `invoked` lists). -/
theorem tight_path_matches_recording_path {σ : Type} (blocks : MR_Code → σ → Outcome σ)
    (k : Nat) (p : PrevLocations) (d : Dispatch σ) :
    tight_path blocks k d = (invoke blocks)^[8 * k] d ∧
    (∀ n, (recording_path blocks n (p, d)).2 = (invoke blocks)^[n] d) ∧
    (recording_path blocks (8 * k) (p, d)).2 = tight_path blocks k d ∧
    (∀ (b : Build) (init_registers : σ → σ × MR_Code) (entry_point : MR_Code) (s : σ),
      b.MR_DEBUG_GOTOS = false →
      (call_engine_inner b true init_registers blocks (8 * k) entry_point p s).2 =
        (call_engine_inner b false init_registers blocks k entry_point p s).2 ∧
      (call_engine_inner b false init_registers blocks k entry_point p s).1 = p) ∧
    (∀ dl : Dispatch (σ × List MR_Code),
      (tight_path (logging blocks) k dl).log = dl.log ++ invoked blocks (8 * k) dl.erase ∧
      (recording_path (logging blocks) (8 * k) (p, dl)).2.log =
        dl.log ++ invoked blocks (8 * k) dl.erase ∧
      (tight_path (logging blocks) k dl).erase = tight_path blocks k dl.erase ∧
      (recording_path (logging blocks) (8 * k) (p, dl)).2.erase =
        tight_path blocks k dl.erase) := by
  have h1 := tight_path_iterate blocks k d
  have h2 : ∀ n, (recording_path blocks n (p, d)).2 = (invoke blocks)^[n] d :=
    fun n => recording_path_iterate blocks n p d
  refine ⟨h1, h2, by rw [h2, h1], ?_, ?_⟩
  · intro b init_registers entry_point s hdg
    simp only [call_engine_inner, hdg, Bool.not_false, Bool.not_true, Bool.and_false,
      Bool.and_true, Bool.and_self]
    simp only [Bool.false_eq_true, if_false, if_true, and_true]
    rw [recording_path_iterate, tight_path_iterate]
  · intro dl
    obtain ⟨h3, h4⟩ := invoke_logging blocks (8 * k) dl
    rw [tight_path_iterate, recording_path_iterate, tight_path_iterate]
    exact ⟨h4, h4, h3, h3⟩

/-- The sample program from block 1 with counter 0, the buffer initial: two
unrolled rounds and sixteen recording rounds both leave the loop, through
block 3, with counter 30. -/
theorem tight_path_matches_recording_path_witness :
    tight_path sample_blocks 2 (Dispatch.running 0 1) =
      (recording_path sample_blocks 16 (prev_locations_init, Dispatch.running 0 1)).2 ∧
    tight_path sample_blocks 2 (Dispatch.running 0 1) = Dispatch.left 30 :=
  ⟨(tight_path_matches_recording_path sample_blocks 2 prev_locations_init
    (Dispatch.running 0 1)).2.2.1.symm, rfl⟩

/-! ### The first guest block -/

/-- The blocks invoked by at least one round start with the block in `fp`. -/
theorem invoked_head {σ : Type} (blocks : MR_Code → σ → Outcome σ) (n : Nat) (s : σ)
    (fp : MR_Code) : (invoked blocks (n + 1) (Dispatch.running s fp)).head? = some fp := by
  simp [invoked]

/-- The log of the portable `call_engine_inner` run over the logging semantics
from an empty log, after at least one round, starts with `entry_point`. -/
theorem call_engine_inner_log_head {σ : Type} (b : Build) (MR_tracedebug : Bool)
    (init_registers : σ → σ × MR_Code) (blocks : MR_Code → σ → Outcome σ) (rounds : Nat)
    (entry_point : MR_Code) (p : PrevLocations) (s : σ) :
    (call_engine_inner b MR_tracedebug (init_with_log init_registers) (logging blocks)
      (rounds + 1) entry_point p (s, [])).2.log.head? = some entry_point := by
  simp only [call_engine_inner, init_with_log]
  split
  · rw [tight_path_iterate]
    have h := (invoke_logging blocks (8 * (rounds + 1))
      (Dispatch.running ((init_registers s).1, []) entry_point)).2
    rw [h]
    have h8 : 8 * (rounds + 1) = (8 * rounds + 7) + 1 := by ring
    rw [h8]
    simp [Dispatch.log, Dispatch.erase, invoked]
  · rw [recording_path_iterate]
    have h := (invoke_logging blocks (rounds + 1)
      (Dispatch.running ((init_registers s).1, []) entry_point)).2
    rw [h]
    simp [Dispatch.log, Dispatch.erase, invoked]

/-- C11: in both dispatch strategies, for every entry point and every engine
state (shadow register file included), the first guest block invoked is
`entry_point`; in the state in which it runs the success continuation register
holds the address of the strategy's done block, whatever the shadow copy held
for it, every other transient register holds its shadow value, every other
register is as it was, and the shadow copy is untouched. In the portable build
the loop is entered with that state and `fp = entry_point` on both paths, its
first round invokes `entry_point` (the recording path after recording it), the
log of invoked blocks starts with `entry_point`, and the value
`engine_init_registers` returns, `NULL`, is dropped: any routine leaving the
same state gives the same run. -/
theorem first_block_is_entry_point (b : Build) (done_addr entry_point : MR_Code)
    (e : MercuryEngine) :
    (first_guest_block b done_addr entry_point e).2 = entry_point ∧
    (first_guest_block b done_addr entry_point e).1.reg Reg.succip = done_addr ∧
    (∀ x, x ≠ Reg.succip →
      (first_guest_block b done_addr entry_point e).1.reg x =
        if b.transient x then e.MR_fake_reg x else e.reg x) ∧
    (first_guest_block b done_addr entry_point e).1.MR_fake_reg = e.MR_fake_reg ∧
    (first_guest_block b done_addr entry_point e).1 = call_engine_inner_start b done_addr e ∧
    (call_engine_inner_portable_first b done_addr entry_point e).1 =
      (engine_init_registers b done_addr e).1 ∧
    (engine_init_registers b done_addr e).2 = NULL ∧
    (∀ (MR_tracedebug : Bool) (blocks : MR_Code → MercuryEngine → Outcome MercuryEngine)
        (p : PrevLocations),
      call_engine_inner b MR_tracedebug (engine_init_registers b done_addr) blocks 0
          entry_point p e =
        (p, Dispatch.running (call_engine_inner_portable_first b done_addr entry_point e).1
          entry_point) ∧
      (∀ rounds,
        call_engine_inner b MR_tracedebug (engine_init_registers b done_addr) blocks
            (rounds + 1) entry_point p e =
          if !b.MR_DEBUG_GOTOS && !MR_tracedebug then
            (p, (invoke blocks)^[8 * rounds + 7] (invoke blocks (Dispatch.running
              (call_engine_inner_portable_first b done_addr entry_point e).1 entry_point)))
          else
            recording_path blocks rounds (record_location p entry_point,
              invoke blocks (Dispatch.running
                (call_engine_inner_portable_first b done_addr entry_point e).1 entry_point))) ∧
      (∀ rounds,
        (call_engine_inner b MR_tracedebug (init_with_log (engine_init_registers b done_addr))
          (logging blocks) (rounds + 1) entry_point p (e, [])).2.log.head?
            = some entry_point) ∧
      (∀ (rounds : Nat) (other : MercuryEngine → MercuryEngine × MR_Code),
        (∀ s, (other s).1 = (engine_init_registers b done_addr s).1) →
        call_engine_inner b MR_tracedebug other blocks rounds entry_point p e =
          call_engine_inner b MR_tracedebug (engine_init_registers b done_addr) blocks rounds
            entry_point p e)) := by
  refine ⟨?_, ?_, ?_, ?_, ?_, rfl, rfl, ?_⟩
  · simp only [first_guest_block]
    split <;> rfl
  · simp only [first_guest_block, call_engine_inner_gcc_first,
      call_engine_inner_portable_first, engine_init_registers, MR_noprof_call]
    split
    · split <;> simp
    · simp
  · intro x hx
    simp only [first_guest_block, call_engine_inner_gcc_first,
      call_engine_inner_portable_first, engine_init_registers, MR_noprof_call]
    split
    · split <;>
        simp [MR_restore_transient_registers, enter_bookkeeping, Function.update, hx]
    · simp [MR_restore_transient_registers, Function.update, hx]
  · simp only [first_guest_block, call_engine_inner_gcc_first,
      call_engine_inner_portable_first, engine_init_registers, MR_noprof_call]
    split
    · split <;> rfl
    · rfl
  · simp only [first_guest_block, call_engine_inner_start, call_engine_inner_gcc_first,
      call_engine_inner_gcc_start, call_engine_inner_portable_first, MR_noprof_call]
    split <;> rfl
  · intro MR_tracedebug blocks p
    refine ⟨?_, ?_, ?_, ?_⟩
    · simp only [call_engine_inner, call_engine_inner_portable_first, tight_path,
        recording_path]
      split <;> rfl
    · intro rounds
      simp only [call_engine_inner, call_engine_inner_portable_first]
      split
      · rw [tight_path_iterate]
        have h8 : 8 * (rounds + 1) = (8 * rounds + 7) + 1 := by ring
        rw [h8, Function.iterate_succ_apply]
      · rfl
    · intro rounds
      exact call_engine_inner_log_head b MR_tracedebug (engine_init_registers b done_addr)
        blocks rounds entry_point p e
    · intro rounds other hother
      simp only [call_engine_inner, hother]

/-- On the sample target with register windows, from a shadow copy holding 111
for the success continuation and 333 for the stack pointer, with done block at
999 and entry point 900: the first block is 900, the success continuation is
999, the stack pointer is the shadow value 333 and the heap pointer, which is
not transient, is still 200; the same in the gcc build. -/
theorem first_block_is_entry_point_witness :
    (first_guest_block sample_build_windows 999 900 sample_shadowed).2 = 900 ∧
    (first_guest_block sample_build_windows 999 900 sample_shadowed).1.reg Reg.succip = 999 ∧
    (first_guest_block sample_build_windows 999 900 sample_shadowed).1.reg Reg.sp = 333 ∧
    (first_guest_block sample_build_windows 999 900 sample_shadowed).1.reg Reg.hp = 200 ∧
    (first_guest_block { sample_build_windows with MR_USE_GCC_NONLOCAL_GOTOS := true }
      999 900 sample_shadowed).1.reg Reg.succip = 999 :=
  have h := first_block_is_entry_point sample_build_windows 999 900 sample_shadowed
  have hg := first_block_is_entry_point
    { sample_build_windows with MR_USE_GCC_NONLOCAL_GOTOS := true } 999 900 sample_shadowed
  ⟨h.1, h.2.1, h.2.2.1 Reg.sp (by decide), h.2.2.1 Reg.hp (by decide), hg.2.1⟩

/-! ### The index of the buffer of previous locations -/

/-- Every buffer reached by recording from the initial one is 40 entries long
with its index below 40. -/
theorem recorded_bounds (seq : List MR_Code) :
    ∀ p : PrevLocations, p.prev_fps.length = 40 → p.prev_fp_index < 40 →
      (seq.foldl record_location p).prev_fps.length = 40 ∧
      (seq.foldl record_location p).prev_fp_index < 40 := by
  induction seq with
  | nil => intro p h1 h2; exact ⟨h1, h2⟩
  | cons x xs ih =>
    intro p h1 h2
    obtain ⟨h3, h4⟩ := record_location_bounds p x h1 h2
    exact ih _ h3 h4

/-- C12: in every state reached from the initial statics (40 entries, index 0)
by any number of recording steps, `prev_fp_index` is below 40 (it is never
negative: it starts at 0 and is only incremented or reset to 0, and the
incremented value is at most 40 before the reset), the array keeps its 40
entries, the write `prev_fps[prev_fp_index]` of the next recording step and
every read `prev_fps[(i + prev_fp_index) % 40]`, `i < 40`, of
`MR_dump_prev_locations` are inside the array; and the statics a call of the
portable `call_engine_inner` leaves are again reached by recording steps (the
tight path leaves them alone, the recording path records the blocks it
invokes), so this holds across any number of calls. -/
theorem prev_fp_index_in_bounds (seq : List MR_Code) :
    (seq.foldl record_location prev_locations_init).prev_fp_index < NUM_PREV_FPS ∧
    (seq.foldl record_location prev_locations_init).prev_fp_index + 1 ≤ NUM_PREV_FPS ∧
    (seq.foldl record_location prev_locations_init).prev_fps.length = NUM_PREV_FPS ∧
    (seq.foldl record_location prev_locations_init).prev_fp_index <
      (seq.foldl record_location prev_locations_init).prev_fps.length ∧
    (∀ i, i < NUM_PREV_FPS →
      (i + (seq.foldl record_location prev_locations_init).prev_fp_index) % NUM_PREV_FPS <
        (seq.foldl record_location prev_locations_init).prev_fps.length) ∧
    (∀ fp : MR_Code,
      (record_location (seq.foldl record_location prev_locations_init) fp).prev_fps.getD
        (seq.foldl record_location prev_locations_init).prev_fp_index NULL = fp) ∧
    (∀ (σ : Type) (b : Build) (MR_tracedebug : Bool) (init_registers : σ → σ × MR_Code)
        (blocks : MR_Code → σ → Outcome σ) (rounds : Nat) (entry_point : MR_Code) (s : σ),
      (call_engine_inner b MR_tracedebug init_registers blocks rounds entry_point
          (seq.foldl record_location prev_locations_init) s).1 =
        (seq ++ (if !b.MR_DEBUG_GOTOS && !MR_tracedebug then []
          else invoked blocks rounds
            (Dispatch.running (init_registers s).1 entry_point))).foldl
          record_location prev_locations_init) := by
  obtain ⟨hlen, hidx⟩ := recorded_bounds seq prev_locations_init (by decide) (by decide)
  refine ⟨hidx, hidx, hlen, by rw [hlen]; exact hidx, ?_, ?_, ?_⟩
  · intro i _
    rw [hlen]
    exact Nat.mod_lt _ (by decide)
  · intro fp
    simp only [record_location, List.getD_eq_getElem?_getD, List.getElem?_set, hlen, hidx]
    simp
  · intro σ b MR_tracedebug init_registers blocks rounds entry_point s
    simp only [call_engine_inner]
    split
    · simp
    · rw [recording_path_records, List.foldl_append]

/-- After three recording steps the index is 3, the next write goes to entry 3
of the 40, and the read for `i = 39` goes to entry 2. -/
theorem prev_fp_index_in_bounds_witness :
    ([901, 902, 903].foldl record_location prev_locations_init).prev_fp_index = 3 ∧
    ([901, 902, 903].foldl record_location prev_locations_init).prev_fp_index <
      ([901, 902, 903].foldl record_location prev_locations_init).prev_fps.length ∧
    (39 + ([901, 902, 903].foldl record_location prev_locations_init).prev_fp_index)
      % NUM_PREV_FPS = 2 ∧
    (39 + ([901, 902, 903].foldl record_location prev_locations_init).prev_fp_index)
      % NUM_PREV_FPS <
      ([901, 902, 903].foldl record_location prev_locations_init).prev_fps.length :=
  have h := prev_fp_index_in_bounds [901, 902, 903]
  ⟨by decide, h.2.2.2.1, by decide, h.2.2.2.2.1 39 (by decide)⟩

end Mercury
